import Mathlib

/-!
# Thread bot: rotation state machine, thread parser and chained publisher

A shallow embedding of `src/index.js`.  JavaScript values are embedded as follows.

* Strings are Lean strings (lists of Unicode scalar values); `.length` is the number of
  UTF-16 code units (`jsLength`).
* Numbers that the program only ever uses as counters and indices are `Int`.
* A function that can throw returns `Except JsError _`.
* The object `THEMES` is the list of its own `(key, value)` pairs in insertion order, which is
  the order `Object.keys` enumerates non-numeric string keys in.
-/

namespace ThreadBot

/-! ## Errors, configuration and the curriculum -/

/-- Errors thrown by the embedded code. -/
inductive JsError where
  /-- A property read on `undefined`. -/
  | typeError (msg : String)
  /-- A rejected call to an external service. -/
  | upstream (msg : String)
deriving DecidableEq, Repr

/-- One value of the `THEMES` object. -/
structure Theme where
  description : String
  subThemes : List String
deriving DecidableEq, Repr

/-- The `THEMES` constant (index.js lines 17-38). -/
def THEMES : List (String × Theme) :=
  [ ("Theme1", { description := "describe Theme1 content here.",
                 subThemes := ["Subtheme1", "Subtheme2", "Subtheme3", "Subtheme4", "Subtheme5"] }),
    ("Theme2", { description := "describe Theme2 content here.",
                 subThemes := ["Subtheme6", "Subtheme7", "Subtheme8", "Subtheme9", "Subtheme10"] }),
    ("Theme3", { description := "describe Theme3 content here.",
                 subThemes := ["Subtheme11", "Subtheme12", "Subtheme13", "Subtheme14", "Subtheme15"] }),
    ("Theme4", { description := "describe Theme4 content here.",
                 subThemes := ["Subtheme16", "Subtheme17", "Subtheme18", "Subtheme19", "Subtheme20"] }),
    ("Theme5", { description := "describe Theme5 content here.",
                 subThemes := ["Subtheme21", "Subtheme22", "Subtheme23", "Subtheme24", "Subtheme25"] }) ]

/-- Number of tweets in each thread. -/
def TWEETS_PER_THREAD : Int := 4

/-- Threads to post per sub-theme before advancing. -/
def THREADS_PER_SUBTHEME : Int := 3

/-- Threads to post per invocation. -/
def THREADS_PER_EXECUTION : Int := 1

/-- Executions per day. -/
def TOTAL_THREADS_PER_DAY : Int := 5

/-- The record kept in the state table. -/
structure State where
  mainTheme : String
  subTheme : String
  threadsPostedToday : Int
  currentSubThemeCount : Int
  lastUpdated : String
  currentDay : String
deriving DecidableEq, Repr

/-! ## JavaScript primitives used by the code -/

/-- The call `Object.keys(obj)`: the own keys in insertion order. -/
def objectKeys (obj : List (String × Theme)) : List String :=
  obj.map Prod.fst

/-- The property read `obj[key]`, `none` standing for a value without a `subThemes` array
(`undefined`, or an inherited member of `Object.prototype`, whose `subThemes` is `undefined`):
every use in the code dereferences `.subThemes` or `.description` of the result at once. -/
def getProp : List (String × Theme) → String → Option Theme
  | [], _ => none
  | (k, v) :: rest, key => if k = key then some v else getProp rest key

/-- The method `Array.prototype.indexOf` on an array of strings: the first index holding the value,
or `-1`. -/
def indexOfFrom : List String → String → Int → Int
  | [], _, _ => -1
  | y :: ys, x, i => if y = x then i else indexOfFrom ys x (i + 1)

/-- The call `xs.indexOf(x)`. -/
def indexOf (xs : List String) (x : String) : Int :=
  indexOfFrom xs x 0

/-- The element read `xs[i]` for an integer `i`; an out-of-range read yields `undefined`,
rendered here as the string `"undefined"`. -/
def elemAt (xs : List String) (i : Int) : String :=
  if i < 0 then "undefined" else (xs.get? i.toNat).getD "undefined"

/-- The error of reading a property of `undefined`. -/
def readOfUndefined (prop : String) : JsError :=
  .typeError ("Cannot read properties of undefined (reading " ++ prop ++ ")")

/-! ## The rotation state machine -/

/-- The function `calculateNextState` (index.js lines 197-227). -/
def calculateNextState (currentState : State) : Except JsError State :=
  if currentState.currentSubThemeCount < THREADS_PER_SUBTHEME then
    .ok currentState
  else
    let mainTheme := currentState.mainTheme
    let subTheme := currentState.subTheme
    let mainThemes := objectKeys THEMES
    let currentMainThemeIndex := indexOf mainThemes mainTheme
    match getProp THEMES mainTheme with
    | none => .error (readOfUndefined "subThemes")
    | some theme =>
      let currentSubThemes := theme.subThemes
      let currentSubThemeIndex := indexOf currentSubThemes subTheme
      if currentSubThemeIndex + 1 < (currentSubThemes.length : Int) then
        .ok { currentState with
                subTheme := elemAt currentSubThemes (currentSubThemeIndex + 1)
                currentSubThemeCount := 0 }
      else
        let nextMainThemeIndex := Int.tmod (currentMainThemeIndex + 1) (mainThemes.length : Int)
        let nextMainTheme := elemAt mainThemes nextMainThemeIndex
        match getProp THEMES nextMainTheme with
        | none => .error (readOfUndefined "subThemes")
        | some nextTheme =>
          .ok { currentState with
                  mainTheme := nextMainTheme
                  subTheme := elemAt nextTheme.subThemes 0
                  currentSubThemeCount := 0 }

/-- The object returned by `getCycleProgress`. -/
structure Progress where
  currentPosition : String
  completedSubThemes : Int
  totalSubThemes : Int
  progressPercentage : Int
  threadsInCurrentSubTheme : Int
  cycleDays : Int
deriving DecidableEq, Repr

/-- The read `THEMES[key].subThemes.length`, throwing when `THEMES[key]` has no `subThemes`. -/
def subThemeCount (key : String) : Except JsError Int :=
  match getProp THEMES key with
  | none => .error (readOfUndefined "subThemes")
  | some theme => .ok (theme.subThemes.length : Int)

/-- The loop `for (let i = 0; i < bound; i++) acc += THEMES[mainThemes[i]].subThemes.length`,
with `fuel` bounding the number of iterations. -/
def sumBefore (mainThemes : List String) (bound : Int) : Nat → Int → Int → Except JsError Int
  | 0, _, acc => .ok acc
  | fuel + 1, i, acc =>
    if i < bound then
      match subThemeCount (elemAt mainThemes i) with
      | .error e => .error e
      | .ok n => sumBefore mainThemes bound fuel (i + 1) (acc + n)
    else .ok acc

/-- The fold `mainThemes.reduce((sum, theme) => sum + THEMES[theme].subThemes.length, 0)`. -/
def totalOf : List String → Int → Except JsError Int
  | [], sum => .ok sum
  | theme :: rest, sum =>
    match subThemeCount theme with
    | .error e => .error e
    | .ok n => totalOf rest (sum + n)

/-- The value `Math.round(x)` for the exact quotient `x = num / den` with `den > 0`: the integer
nearest to `x`, a tie going up. -/
def roundDiv (num den : Int) : Int :=
  (2 * num + den) / (2 * den)

/-- The value `Math.ceil(num / den)` for the exact quotient with `den > 0`. -/
def ceilDiv (num den : Int) : Int :=
  -((-num) / den)

/-- The function `getCycleProgress` (index.js lines 230-253).  The percentage is computed on
the exact quotient; the other fields involve integers only. -/
def getCycleProgress (currentState : State) : Except JsError Progress :=
  let mainThemes := objectKeys THEMES
  let currentMainThemeIndex := indexOf mainThemes currentState.mainTheme
  match getProp THEMES currentState.mainTheme with
  | none => .error (readOfUndefined "subThemes")
  | some theme =>
    let currentSubThemeIndex := indexOf theme.subThemes currentState.subTheme
    match sumBefore mainThemes currentMainThemeIndex mainThemes.length 0 0 with
    | .error e => .error e
    | .ok before =>
      let completedSubThemes := before + currentSubThemeIndex
      match totalOf mainThemes 0 with
      | .error e => .error e
      | .ok totalSubThemes =>
        .ok { currentPosition := currentState.mainTheme ++ " -> " ++ currentState.subTheme
              completedSubThemes := completedSubThemes
              totalSubThemes := totalSubThemes
              progressPercentage := roundDiv (completedSubThemes * 100) totalSubThemes
              threadsInCurrentSubTheme := currentState.currentSubThemeCount
              cycleDays := ceilDiv (totalSubThemes * THREADS_PER_SUBTHEME) TOTAL_THREADS_PER_DAY }

/-! ## Positions of the curriculum -/

/-- The position with main theme number `i` and sub-theme number `j` (both from 0), in the
declared order of `THEMES`. -/
def positionAt (i j : Nat) : Option (String × String) :=
  match THEMES[i]? with
  | none => none
  | some (key, theme) =>
    match theme.subThemes[j]? with
    | none => none
    | some sub => some (key, sub)

/-- The successor of position `(i, j)`: the next sub-theme of the same main theme when there
is one, otherwise the first sub-theme of the next main theme, the last main theme being
followed by the first. -/
def successorIndex (i j : Nat) : Nat × Nat :=
  match THEMES[i]? with
  | none => (i, j)
  | some (_, theme) =>
    if j + 1 < theme.subThemes.length then (i, j + 1) else ((i + 1) % THEMES.length, 0)

/-- Every position `(mainTheme, subTheme)` of the curriculum, in declared order. -/
def allPositions : List (String × String) :=
  THEMES.flatMap (fun kv => kv.2.subThemes.map (fun t => (kv.1, t)))

/-- A state is at a valid position when its main theme is a key of `THEMES` and its sub-theme
is a member of that main theme's list. -/
def validPosition (s : State) : Prop :=
  ∃ theme, getProp THEMES s.mainTheme = some theme ∧ s.subTheme ∈ theme.subThemes

/-- The position computed by the advancing branch of `calculateNextState` (lines 202-226),
as a function of the two fields that branch reads. -/
def advancePosition (mainTheme subTheme : String) : Except JsError (String × String) :=
  match getProp THEMES mainTheme with
  | none => .error (readOfUndefined "subThemes")
  | some theme =>
    if indexOf theme.subThemes subTheme + 1 < (theme.subThemes.length : Int) then
      .ok (mainTheme, elemAt theme.subThemes (indexOf theme.subThemes subTheme + 1))
    else
      match getProp THEMES (elemAt (objectKeys THEMES)
          (Int.tmod (indexOf (objectKeys THEMES) mainTheme + 1)
            ((objectKeys THEMES).length : Int))) with
      | none => .error (readOfUndefined "subThemes")
      | some nextTheme =>
        .ok (elemAt (objectKeys THEMES)
          (Int.tmod (indexOf (objectKeys THEMES) mainTheme + 1)
            ((objectKeys THEMES).length : Int)),
          elemAt nextTheme.subThemes 0)

/-- The result of `advancePosition` when it returns. -/
def advanceOpt (p : String × String) : Option (String × String) :=
  match advancePosition p.1 p.2 with
  | .ok q => some q
  | .error _ => none

/-- One round of the traversal: the quota of the current position is completed, then
`calculateNextState` is applied. -/
def completeQuotaAndAdvance (s : State) : Except JsError State :=
  calculateNextState { s with currentSubThemeCount := THREADS_PER_SUBTHEME }

/-- The round `completeQuotaAndAdvance` repeated `n` times. -/
def repeatAdvance : Nat → State → Except JsError State
  | 0, s => .ok s
  | n + 1, s =>
    match completeQuotaAndAdvance s with
    | .error e => .error e
    | .ok s' => repeatAdvance n s'

/-! ## The thread parser -/

/-- What `\s` matches and what `trim` strips: the ECMAScript WhiteSpace and LineTerminator
code points (tab, LF, VT, FF, CR, space, U+00A0, U+1680, U+2000..U+200A, U+2028, U+2029,
U+202F, U+205F, U+3000, U+FEFF). -/
def isJsSpace (c : Char) : Bool :=
  c.toNat == 9 || c.toNat == 10 || c.toNat == 11 || c.toNat == 12 || c.toNat == 13 ||
  c.toNat == 32 || c.toNat == 160 || c.toNat == 5760 ||
  (decide (8192 ≤ c.toNat) && decide (c.toNat ≤ 8202)) ||
  c.toNat == 8232 || c.toNat == 8233 || c.toNat == 8239 || c.toNat == 8287 ||
  c.toNat == 12288 || c.toNat == 65279

/-- What `\d` matches: the ASCII digits. -/
def isJsDigit (c : Char) : Bool :=
  decide (48 ≤ c.toNat) && decide (c.toNat ≤ 57)

/-- The line terminators LF, CR, U+2028 and U+2029. -/
def isLineTerminator (c : Char) : Bool :=
  c.toNat == 10 || c.toNat == 13 || c.toNat == 8232 || c.toNat == 8233

/-- What `.` matches (no `s` flag): anything but a line terminator. -/
def isJsDot (c : Char) : Bool :=
  !isLineTerminator c

/-- The property `s.length`: the number of UTF-16 code units, two for a character outside the basic
plane. -/
def jsLength (s : List Char) : Nat :=
  (s.map (fun c => if c.toNat < 65536 then 1 else 2)).sum

/-- The call `s.trim()`. -/
def jsTrim (s : List Char) : List Char :=
  (s.dropWhile isJsSpace).rdropWhile isJsSpace

/-- The call `response.split("\n")`. -/
def splitLines (response : List Char) : List (List Char) :=
  response.splitOn (Char.ofNat 10)

/-- A literal followed by the rest `k` of a pattern. -/
def litThen {α : Type} (lit : List Char) (k : List Char → Option α) (s : List Char) :
    Option α :=
  if lit.isPrefixOf s then k (s.drop lit.length) else none

/-- A greedy `c*` over a character class followed by the rest `k` of a pattern: the longest
run is tried first, and a shorter one when the rest fails (backtracking). -/
def starThen {α : Type} (p : Char → Bool) (k : List Char → Option α) : List Char → Option α
  | [] => k []
  | c :: t =>
    if p c then
      match starThen p k t with
      | some r => some r
      | none => k (c :: t)
    else k (c :: t)

/-- A greedy `c+` over a character class followed by the rest `k` of a pattern. -/
def plusThen {α : Type} (p : Char → Bool) (k : List Char → Option α) : List Char → Option α
  | [] => none
  | c :: t => if p c then starThen p k t else none

/-- The capturing group `(.+)` closing a pattern: the text it consumed. -/
def captureDotPlus (s : List Char) : Option (List Char) :=
  plusThen isJsDot (fun rest => some (s.take (s.length - rest.length))) s

/-- The first capture of `line.match(/^TWEET\s*\d+:\s*(.+)/)`, `none` when there is no match.
The pattern is anchored at the start of the string (no `m` flag). -/
def matchTweet (line : List Char) : Option (List Char) :=
  litThen "TWEET".data
    (starThen isJsSpace
      (plusThen isJsDigit
        (litThen ":".data
          (starThen isJsSpace captureDotPlus)))) line

/-- The body of the loop of `extractThread` for one line: the tweet pushed, if any. -/
def lineTweet (line : List Char) : Option (List Char) :=
  match matchTweet line with
  | none => none
  | some m1 =>
    let tweet := jsTrim m1
    if tweet ≠ [] ∧ jsLength tweet ≤ 280 then some tweet else none

/-- The loop of `extractThread` over the lines. -/
def extractLines : List (List Char) → List (List Char)
  | [] => []
  | line :: rest =>
    match lineTweet line with
    | some tweet => tweet :: extractLines rest
    | none => extractLines rest

/-- The function `extractThread` (index.js lines 377-392). -/
def extractThread (response : String) : List String :=
  (extractLines (splitLines response.data)).map String.mk

/-! ## The publishing pipeline -/

/-- The request body `tweetData` built by `postThread`: the text and, when present,
`reply.in_reply_to_tweet_id`. -/
structure TweetData where
  text : String
  reply : Option String
deriving DecidableEq, Repr

/-- What the program does to the outside world while publishing: a call of `postTweet`
with its request and its outcome (the id in `result.data.id`, or the error thrown), and a
pause of the given number of milliseconds. -/
inductive Event where
  | post (data : TweetData) (result : Except JsError String)
  | pause (ms : Nat)

/-- The posting service behind `postTweet`: from the state of the outside world and a request
to the outcome of the call and the next state of the world. -/
abbrev PostService (σ : Type) := σ → TweetData → Except JsError String × σ

/-- The outcome of `postThread`: the value returned or the error thrown, the calls and pauses
performed, in order, and the outside world afterwards. -/
structure ThreadRun (σ : Type) where
  result : Except JsError (List String)
  trace : List Event
  world : σ

/-- The test `if (previousTweetId)`: `null` and the empty string are falsy. -/
def truthyId : Option String → Bool
  | none => false
  | some id => id ≠ ""

/-- The loop of `postThread` from the unit at the head of the list on, with the loop variables
`previousTweetId` and `tweetIds`, the events so far and the outside world.  The unit in hand
is the last one (`i = tweets.length - 1`) exactly when no unit follows it. -/
def postThreadFrom {σ : Type} (postTweet : PostService σ) :
    List String → Option String → List String → List Event → σ → ThreadRun σ
  | [], _, tweetIds, trace, world => ⟨.ok tweetIds, trace, world⟩
  | text :: rest, previousTweetId, tweetIds, trace, world =>
    let tweetData : TweetData :=
      { text := text, reply := if truthyId previousTweetId then previousTweetId else none }
    match postTweet world tweetData with
    | (.error e, world') => ⟨.error e, trace ++ [.post tweetData (.error e)], world'⟩
    | (.ok id, world') =>
      let posted := trace ++ [.post tweetData (.ok id)]
      postThreadFrom postTweet rest (some id) (tweetIds ++ [id])
        (if rest ≠ [] then posted ++ [.pause 3000] else posted) world'

/-- The function `postThread` (index.js lines 395-427); the credentials are part of the service. -/
def postThread {σ : Type} (postTweet : PostService σ) (tweets : List String) (world : σ) :
    ThreadRun σ :=
  postThreadFrom postTweet tweets none [] [] world

/-- The calls of `postTweet` in a trace, in order. -/
def callsOf : List Event → List (TweetData × Except JsError String)
  | [] => []
  | .post d r :: rest => (d, r) :: callsOf rest
  | .pause _ :: rest => callsOf rest

/-- The number of pauses in a trace. -/
def pausesOf : List Event → Nat
  | [] => 0
  | .post _ _ :: rest => pausesOf rest
  | .pause _ :: rest => pausesOf rest + 1

/-- The events of a published chain: unit `i` is posted with the given reply link and
answered by the id `ids[i]`, the reply link of the next unit being `ids[i]`, and a pause of
3000 ms stands between two consecutive posts. -/
def chainEvents : List String → Option String → List String → List Event
  | [text], reply, id :: _ => [.post ⟨text, reply⟩ (.ok id)]
  | text :: next :: rest, reply, id :: ids =>
    .post ⟨text, reply⟩ (.ok id) :: .pause 3000 :: chainEvents (next :: rest) (some id) ids
  | _, _, _ => []

/-- A posting service that accepts every request and answers with an empty id. -/
def emptyIdService : PostService Unit :=
  fun w _ => (.ok "", w)

/-- A posting service that numbers its calls in its state and answers call `n` with the id
made of `n + 1` letters. -/
def countingService : PostService Nat :=
  fun n _ => (.ok (String.mk (List.replicate (n + 1) (Char.ofNat 120))), n + 1)

/-- A posting service that accepts its first call and rejects every later one. -/
def secondCallFails : PostService Nat :=
  fun n _ => if n = 0 then (.ok "id0", n + 1) else (.error (.upstream "rejected"), n + 1)

/-- A line of the format the parser accepts, together with the unit it carries: the literal
`TWEET`, optional whitespace, a non-empty run of digits (any number), a colon, optional
whitespace, then the content: it starts with a non-whitespace character, holds no line
terminator and runs to the end of the line or to the first line terminator.  The unit is the
content without its trailing whitespace, and is kept only if it has at most 280 code
units. -/
def TweetLine (line unit : List Char) : Prop :=
  ∃ ws1 ds ws2 c t rest,
    line = "TWEET".data ++ ws1 ++ ds ++ ":".data ++ ws2 ++ (c :: t) ++ rest ∧
    (∀ x ∈ ws1, isJsSpace x = true) ∧ ds ≠ [] ∧ (∀ x ∈ ds, isJsDigit x = true) ∧
    (∀ x ∈ ws2, isJsSpace x = true) ∧
    isJsSpace c = false ∧ (∀ x ∈ c :: t, isLineTerminator x = false) ∧
    (rest = [] ∨ ∃ x r, rest = x :: r ∧ isLineTerminator x = true) ∧
    unit = (c :: t).rdropWhile isJsSpace ∧ jsLength unit ≤ 280

/-- The lines `TWEET k: <text>`, `TWEET k+1: <text>`, ... for the given units. -/
def numberedLines : Nat → List (List Char) → List (List Char)
  | _, [] => []
  | k, u :: us => ("TWEET ".data ++ (toString k).data ++ ": ".data ++ u) :: numberedLines (k + 1) us

/-- A thread written back in the output format asked of the generator: one line
`TWEET k: <text>` per unit, numbered from 1, the lines joined by newlines. -/
def serializeThread (units : List String) : String :=
  String.mk ([Char.ofNat 10].intercalate (numberedLines 1 (units.map String.data)))

/-! ## The invocation handler -/

/-- What the outside world answers during one activation of the handler. -/
structure Env (σ : Type) where
  /-- The outcome of the `GetCommand` on the state table: the item, if there is one. -/
  getItem : Except JsError (Option State)
  /-- The value of `new Date().toDateString()`. -/
  today : String
  /-- The value of `new Date().toISOString()` at the `n`-th `PutCommand`. -/
  timestamp : Nat → String
  /-- Whether the `n`-th `PutCommand` is rejected. -/
  putFails : Nat → Bool
  /-- The value of `getSampleThreads()`: the `text` of every item scanned, `none` for an item
  without one; the empty list when the scan fails. -/
  sampleThreads : List (Option String)
  /-- The outcome of `getCredentials`. -/
  credentials : Except JsError Unit
  /-- The outcome of the `t`-th request to the text-generation service: the text of the
  first choice, or the error thrown. -/
  completion : Nat → Except JsError String
  /-- The posting service. -/
  postTweet : PostService σ

/-- The effects of an activation so far: the items written to the state table, in order, the
number of `PutCommand`s sent, the calls and pauses of the publisher, and the state of the
posting service. -/
structure Effects (σ : Type) where
  persisted : List State
  puts : Nat
  events : List Event
  world : σ

/-- The function `updateState` (index.js lines 185-194): the state is written with a fresh
`lastUpdated`. -/
def updateState {σ : Type} (env : Env σ) (state : State) (fx : Effects σ) :
    Except JsError Unit × Effects σ :=
  if env.putFails fx.puts then
    (.error (.upstream "PutCommand rejected"), { fx with puts := fx.puts + 1 })
  else
    (.ok (), { fx with
                 puts := fx.puts + 1
                 persisted := fx.persisted ++
                   [{ state with lastUpdated := env.timestamp fx.puts }] })

/-- The function `initializeState` (index.js lines 170-182). -/
def initializeState {σ : Type} (env : Env σ) : Except JsError State :=
  let mainThemes := objectKeys THEMES
  let firstMainTheme := elemAt mainThemes 0
  match getProp THEMES firstMainTheme with
  | none => .error (readOfUndefined "subThemes")
  | some theme =>
    .ok { mainTheme := firstMainTheme
          subTheme := elemAt theme.subThemes 0
          threadsPostedToday := 0
          currentSubThemeCount := 0
          lastUpdated := env.timestamp 0
          currentDay := env.today }

/-- The function `getCurrentState` (index.js lines 153-167). -/
def getCurrentState {σ : Type} (env : Env σ) (fx : Effects σ) :
    Except JsError State × Effects σ :=
  match env.getItem with
  | .error e => (.error e, fx)
  | .ok (some item) => (.ok item, fx)
  | .ok none =>
    match initializeState env with
    | .error e => (.error e, fx)
    | .ok initialState =>
      match updateState env initialState fx with
      | (.error e, fx') => (.error e, fx')
      | (.ok _, fx') => (.ok initialState, fx')

/-- The filter computing `relevantSamples` (index.js lines 77-79).  The samples kept only
reach the prompt sent to the text-generation service; the filter itself throws when an item
scanned has no text, `toLowerCase` being read on `undefined`. -/
def filterSamples (sampleThreads : List (Option String)) : Except JsError Unit :=
  if sampleThreads.all Option.isSome then .ok () else .error (readOfUndefined "toLowerCase")

/-- One entry of `postedThreads`. -/
structure PostedThread where
  tweets : List String
  tweetIds : List String
deriving DecidableEq, Repr

/-- The loop of the handler (index.js lines 92-119), `remaining` being the number of
iterations left, `threadsToGenerate - t`. -/
def handlerLoop {σ : Type} (env : Env σ) (mainTheme : String) :
    Nat → Nat → State → List PostedThread → Effects σ →
      Except JsError (State × List PostedThread) × Effects σ
  | 0, _, state, postedThreads, fx => (.ok (state, postedThreads), fx)
  | remaining + 1, t, state, postedThreads, fx =>
    match getProp THEMES mainTheme with
    | none => (.error (readOfUndefined "description"), fx)
    | some _ =>
      match env.completion t with
      | .error e => (.error e, fx)
      | .ok content =>
        let thread := extractThread content
        let run := postThread env.postTweet thread fx.world
        let fx1 : Effects σ := { fx with events := fx.events ++ run.trace, world := run.world }
        match run.result with
        | .error e => (.error e, fx1)
        | .ok tweetIds =>
          let state1 : State :=
            { state with
                currentSubThemeCount := state.currentSubThemeCount + 1
                threadsPostedToday := state.threadsPostedToday + 1 }
          match updateState env state1 fx1 with
          | (.error e, fx2) => (.error e, fx2)
          | (.ok _, fx2) =>
            handlerLoop env mainTheme remaining (t + 1) state1
              (postedThreads ++ [⟨thread, tweetIds⟩]) fx2

/-- The body of the successful response. -/
structure Summary where
  postedThreads : List PostedThread
  newState : State
  progress : Progress

/-- The `try` block of the handler (index.js lines 51-138).  The prompt only reaches the
text-generation service, whose answers are given by `env`. -/
def handlerBody {σ : Type} (env : Env σ) (fx0 : Effects σ) :
    Except JsError Summary × Effects σ :=
  match getCurrentState env fx0 with
  | (.error e, fx) => (.error e, fx)
  | (.ok loaded, fx) =>
    match getCycleProgress loaded with
    | .error e => (.error e, fx)
    | .ok _ =>
      match env.credentials with
      | .error e => (.error e, fx)
      | .ok _ =>
        let mainTheme := loaded.mainTheme
        let currentSubThemeCount := loaded.currentSubThemeCount
        let threadsToGenerate :=
          min THREADS_PER_EXECUTION (THREADS_PER_SUBTHEME - currentSubThemeCount)
        match filterSamples env.sampleThreads with
        | .error e => (.error e, fx)
        | .ok _ =>
          let state : State :=
            if env.today ≠ loaded.currentDay then
              { loaded with threadsPostedToday := 0, currentDay := env.today }
            else loaded
          match handlerLoop env mainTheme threadsToGenerate.toNat 0 state [] fx with
          | (.error e, fx1) => (.error e, fx1)
          | (.ok (state1, postedThreads), fx1) =>
            match calculateNextState state1 with
            | .error e => (.error e, fx1)
            | .ok newState =>
              match updateState env newState fx1 with
              | (.error e, fx2) => (.error e, fx2)
              | (.ok _, fx2) =>
                match getCycleProgress newState with
                | .error e => (.error e, fx2)
                | .ok newProgress => (.ok ⟨postedThreads, newState, newProgress⟩, fx2)

/-- The outcome of one activation. -/
structure Activation (σ : Type) where
  statusCode : Nat
  summary : Option Summary
  effects : Effects σ

/-- The function `exports.handler` (index.js lines 50-150): a failure anywhere in the body is
caught and answered with status 500. -/
def handler {σ : Type} (env : Env σ) (world : σ) : Activation σ :=
  match handlerBody env ⟨[], 0, [], world⟩ with
  | (.ok summary, fx) => ⟨200, some summary, fx⟩
  | (.error _, fx) => ⟨500, none, fx⟩

/-- An outside world in which every call succeeds: the state table holds the given item, the
generator answers with a two-unit thread and the posting service numbers its answers. -/
def calmEnv (item : State) : Env Nat where
  getItem := .ok (some item)
  today := "Tue Nov 03 2026"
  timestamp := fun n => String.mk (List.replicate (n + 1) (Char.ofNat 116))
  putFails := fun _ => false
  sampleThreads := [some "Hello #Subtheme5"]
  credentials := .ok ()
  completion := fun _ => .ok "TWEET 1: Hello #x\nNOTES: ignore\nTWEET 2: World"
  postTweet := countingService

/-- An outside world like `calmEnv` in all but one respect: the second `PutCommand` of the
activation is rejected. -/
def finalPutRejectedEnv (item : State) : Env Nat :=
  { calmEnv item with putFails := fun n => n == 1 }

/-! ## Progress through the curriculum -/

/-- The number of sub-themes of the main themes declared strictly before main theme
number `i`. -/
def subThemesBefore (i : Nat) : Nat :=
  ((THEMES.take i).map (fun kv => kv.2.subThemes.length)).sum

/-- The total number of sub-themes of the curriculum. -/
def totalSubThemeCount : Nat :=
  (THEMES.map (fun kv => kv.2.subThemes.length)).sum

/-- The value of `completedSubThemes` computed by `getCycleProgress` (lines 231-240), as a
function of the two fields of the state it is computed from. -/
def completedCount (mainTheme subTheme : String) : Except JsError Int :=
  match getProp THEMES mainTheme with
  | none => .error (readOfUndefined "subThemes")
  | some theme =>
    match sumBefore (objectKeys THEMES) (indexOf (objectKeys THEMES) mainTheme)
        (objectKeys THEMES).length 0 0 with
    | .error e => .error e
    | .ok before => .ok (before + indexOf theme.subThemes subTheme)

/-! ## Theorems: the rotation state machine -/

theorem getProp_eq_none_iff (obj : List (String × Theme)) (key : String) :
    getProp obj key = none ↔ key ∉ objectKeys obj := by
  induction obj with
  | nil => simp [getProp, objectKeys]
  | cons kv rest ih =>
    obtain ⟨k, v⟩ := kv
    unfold getProp
    by_cases hk : k = key
    · simp [hk, objectKeys]
    · have hk' : ¬ key = k := fun h => hk h.symm
      simpa [hk, hk', objectKeys] using ih

theorem calculateNextState_of_quota (s : State)
    (h : THREADS_PER_SUBTHEME ≤ s.currentSubThemeCount) :
    calculateNextState s =
      (advancePosition s.mainTheme s.subTheme).map
        (fun p => { s with mainTheme := p.1, subTheme := p.2, currentSubThemeCount := 0 }) := by
  unfold calculateNextState advancePosition
  rw [if_neg (not_lt.mpr h)]
  simp only []
  cases getProp THEMES s.mainTheme with
  | none => rfl
  | some theme =>
    simp only []
    split
    · rfl
    · split <;> rfl

set_option maxRecDepth 100000 in
theorem advance_at_index : ∀ i < 5, ∀ j < 5,
    (positionAt i j).isSome = true ∧
    (positionAt i j).bind advanceOpt =
      positionAt (successorIndex i j).1 (successorIndex i j).2 := by
  decide

theorem successorIndex_bounds : ∀ i < 5, ∀ j < 5,
    (successorIndex i j).1 < 5 ∧ (successorIndex i j).2 < 5 := by
  decide

theorem positionAt_bounds {i j : Nat} {p : String × String} (h : positionAt i j = some p) :
    i < 5 ∧ j < 5 := by
  by_contra hb
  have hn : positionAt i j = none := by
    by_cases hi : i < 5
    · have hj : 5 ≤ j := by omega
      interval_cases i <;>
        simp [positionAt, THEMES, List.getElem?_eq_none, hj]
    · have hi5 : THEMES.length ≤ i := by simp [THEMES]; omega
      simp [positionAt, List.getElem?_eq_none hi5]
  rw [hn] at h
  cases h

/-- C1: at a valid position `(i, j)` of `THEMES` with the quota met, `calculateNextState`
returns the state at the successor position (next sub-theme of the same main theme, or the
first sub-theme of the next main theme, cyclically), with `currentSubThemeCount` reset to 0
and `threadsPostedToday`, `currentDay`, `lastUpdated` unchanged. -/
theorem calculateNextState_successor (s : State) (i j : Nat)
    (hpos : positionAt i j = some (s.mainTheme, s.subTheme))
    (hq : THREADS_PER_SUBTHEME ≤ s.currentSubThemeCount) :
    ∃ m t, positionAt (successorIndex i j).1 (successorIndex i j).2 = some (m, t) ∧
      calculateNextState s =
        .ok { mainTheme := m, subTheme := t, threadsPostedToday := s.threadsPostedToday,
              currentSubThemeCount := 0, lastUpdated := s.lastUpdated,
              currentDay := s.currentDay } := by
  obtain ⟨hi, hj⟩ := positionAt_bounds hpos
  obtain ⟨-, hadv⟩ := advance_at_index i hi j hj
  rw [hpos] at hadv
  simp only [Option.bind, advanceOpt] at hadv
  rw [calculateNextState_of_quota s hq]
  cases hres : advancePosition s.mainTheme s.subTheme with
  | error e =>
    rw [hres] at hadv
    obtain ⟨hi5, hj5⟩ := successorIndex_bounds i hi j hj
    obtain ⟨hsome, -⟩ := advance_at_index _ hi5 _ hj5
    rw [← hadv] at hsome
    cases hsome
  | ok q =>
    rw [hres] at hadv
    exact ⟨q.1, q.2, hadv.symm, rfl⟩

/-- Witness of C1: the last sub-theme of `Theme1` is followed by the first of `Theme2`. -/
theorem calculateNextState_successor_witness :
    positionAt 0 4 = some ("Theme1", "Subtheme5") ∧
    THREADS_PER_SUBTHEME ≤ (3 : Int) ∧
    ∃ m t, positionAt (successorIndex 0 4).1 (successorIndex 0 4).2 = some (m, t) ∧
      calculateNextState ⟨"Theme1", "Subtheme5", 2, 3, "t0", "Mon"⟩ =
        .ok ⟨m, t, 2, 0, "t0", "Mon"⟩ :=
  ⟨by decide, by decide,
    calculateNextState_successor ⟨"Theme1", "Subtheme5", 2, 3, "t0", "Mon"⟩ 0 4
      (by decide) (by decide)⟩

/-- C3: below the quota `calculateNextState` returns the state it was given, whatever its
position. -/
theorem calculateNextState_below_quota (s : State)
    (h : s.currentSubThemeCount < THREADS_PER_SUBTHEME) :
    calculateNextState s = .ok s := by
  unfold calculateNextState
  rw [if_pos h]

/-- Witness of C3, at a position that is not in the curriculum. -/
theorem calculateNextState_below_quota_witness :
    (2 : Int) < THREADS_PER_SUBTHEME ∧
    calculateNextState ⟨"Nowhere", "Nothing", 7, 2, "t0", "Mon"⟩ =
      .ok ⟨"Nowhere", "Nothing", 7, 2, "t0", "Mon"⟩ :=
  ⟨by decide, calculateNextState_below_quota ⟨"Nowhere", "Nothing", 7, 2, "t0", "Mon"⟩
    (by decide)⟩

theorem getProp_mem {obj : List (String × Theme)} {key : String} {v : Theme}
    (h : getProp obj key = some v) : (key, v) ∈ obj := by
  induction obj with
  | nil => simp [getProp] at h
  | cons kv rest ih =>
    obtain ⟨k, w⟩ := kv
    unfold getProp at h
    by_cases hk : k = key
    · simp [hk] at h
      simp [hk, h]
    · simp [hk] at h
      exact List.mem_cons_of_mem _ (ih h)

theorem validPosition_index {s : State} (h : validPosition s) :
    ∃ p, p < 25 ∧ allPositions[p]? = some (s.mainTheme, s.subTheme) := by
  obtain ⟨theme, hget, hmem⟩ := h
  have hin : (s.mainTheme, s.subTheme) ∈ allPositions := by
    unfold allPositions
    rw [List.mem_flatMap]
    exact ⟨(s.mainTheme, theme), getProp_mem hget, List.mem_map.mpr ⟨s.subTheme, hmem, rfl⟩⟩
  obtain ⟨p, hp⟩ := List.mem_iff_getElem?.mp hin
  obtain ⟨hlt, -⟩ := List.getElem?_eq_some_iff.mp hp
  exact ⟨p, hlt, hp⟩

set_option maxRecDepth 100000 in
theorem advance_at_linear : ∀ p < 25,
    (allPositions[p]?).isSome = true ∧
    (allPositions[p]?).bind advanceOpt = allPositions[(p + 1) % 25]? := by
  decide

theorem allPositions_nodup : allPositions.Nodup := by
  decide

theorem allPositions_index_inj {a b : Nat} {x : String × String}
    (ha : allPositions[a]? = some x) (hb : allPositions[b]? = some x) : a = b :=
  List.getElem?_inj (List.getElem?_eq_some_iff.mp ha).1 allPositions_nodup (ha.trans hb.symm)

theorem completeQuotaAndAdvance_linear (s : State) (p : Nat) (hp : p < 25)
    (hpos : allPositions[p]? = some (s.mainTheme, s.subTheme)) :
    ∃ s', completeQuotaAndAdvance s = .ok s' ∧
      allPositions[(p + 1) % 25]? = some (s'.mainTheme, s'.subTheme) := by
  obtain ⟨-, hadv⟩ := advance_at_linear p hp
  obtain ⟨hsome, -⟩ := advance_at_linear ((p + 1) % 25) (Nat.mod_lt _ (by norm_num))
  rw [hpos] at hadv
  simp only [Option.bind, advanceOpt] at hadv
  unfold completeQuotaAndAdvance
  rw [calculateNextState_of_quota _ (le_refl _)]
  cases hres : advancePosition s.mainTheme s.subTheme with
  | error e =>
    rw [hres] at hadv
    rw [← hadv] at hsome
    cases hsome
  | ok q =>
    rw [hres] at hadv
    exact ⟨_, rfl, hadv.symm⟩

theorem repeatAdvance_linear (k : Nat) : ∀ (s : State) (p : Nat), p < 25 →
    allPositions[p]? = some (s.mainTheme, s.subTheme) →
    ∃ s', repeatAdvance k s = .ok s' ∧
      allPositions[(p + k) % 25]? = some (s'.mainTheme, s'.subTheme) := by
  induction k with
  | zero =>
    intro s p hp hpos
    exact ⟨s, rfl, by rw [Nat.add_zero, Nat.mod_eq_of_lt hp]; exact hpos⟩
  | succ k ih =>
    intro s p hp hpos
    obtain ⟨s1, h1, hpos1⟩ := completeQuotaAndAdvance_linear s p hp hpos
    obtain ⟨s2, h2, hpos2⟩ := ih s1 ((p + 1) % 25) (Nat.mod_lt _ (by norm_num)) hpos1
    refine ⟨s2, ?_, ?_⟩
    · simp only [repeatAdvance, h1]
      exact h2
    · have he : ((p + 1) % 25 + k) % 25 = (p + (k + 1)) % 25 := by omega
      rw [← he]
      exact hpos2

/-- C2: from every valid position, completing the quota and applying `calculateNextState`
25 times (25 being the total number of sub-themes) returns to the starting position, no
smaller positive number of rounds does, and every valid position is reached within the
first 25 rounds: the traversal is a single cycle through the whole curriculum. -/
theorem repeatAdvance_single_cycle (s : State) (h : validPosition s) :
    totalOf (objectKeys THEMES) 0 = .ok 25 ∧
    (∃ s', repeatAdvance 25 s = .ok s' ∧
      s'.mainTheme = s.mainTheme ∧ s'.subTheme = s.subTheme) ∧
    (∀ k, 0 < k → k < 25 → ∃ s', repeatAdvance k s = .ok s' ∧
      ¬ (s'.mainTheme = s.mainTheme ∧ s'.subTheme = s.subTheme)) ∧
    (∀ s₀, validPosition s₀ → ∃ k, k < 25 ∧ ∃ s', repeatAdvance k s = .ok s' ∧
      s'.mainTheme = s₀.mainTheme ∧ s'.subTheme = s₀.subTheme) := by
  obtain ⟨p, hp, hpos⟩ := validPosition_index h
  refine ⟨rfl, ?_, ?_, ?_⟩
  · obtain ⟨s', hrun, hpos'⟩ := repeatAdvance_linear 25 s p hp hpos
    have he : (p + 25) % 25 = p := by omega
    rw [he, hpos] at hpos'
    injection hpos' with hpos'
    injection hpos' with hm ht
    exact ⟨s', hrun, hm.symm, ht.symm⟩
  · intro k hk0 hk25
    obtain ⟨s', hrun, hpos'⟩ := repeatAdvance_linear k s p hp hpos
    refine ⟨s', hrun, ?_⟩
    rintro ⟨hm, ht⟩
    rw [hm, ht] at hpos'
    have := allPositions_index_inj hpos' hpos
    omega
  · intro s₀ h₀
    obtain ⟨q, hq, hposq⟩ := validPosition_index h₀
    obtain ⟨s', hrun, hpos'⟩ := repeatAdvance_linear ((q + 25 - p) % 25) s p hp hpos
    have he : (p + (q + 25 - p) % 25) % 25 = q := by omega
    rw [he, hposq] at hpos'
    injection hpos' with hpos'
    injection hpos' with hm ht
    exact ⟨_, Nat.mod_lt _ (by norm_num), s', hrun, hm.symm, ht.symm⟩

/-- Witness of C2, starting in the middle of the curriculum. -/
theorem repeatAdvance_single_cycle_witness :
    validPosition ⟨"Theme3", "Subtheme13", 0, 1, "t0", "Mon"⟩ ∧
    (∃ s', repeatAdvance 25 ⟨"Theme3", "Subtheme13", 0, 1, "t0", "Mon"⟩ = .ok s' ∧
      s'.mainTheme = "Theme3" ∧ s'.subTheme = "Subtheme13") :=
  ⟨⟨_, rfl, by decide⟩,
    (repeatAdvance_single_cycle ⟨"Theme3", "Subtheme13", 0, 1, "t0", "Mon"⟩
      ⟨_, rfl, by decide⟩).2.1⟩

/-- C10, as stated, fails: `Theme1` is a key of `THEMES` and `Subtheme99` is not in its list,
so the position is not valid, yet with the quota met `calculateNextState` returns a state
(at the first sub-theme of `Theme1`) and `getCycleProgress` returns a report (with
`completedSubThemes = -1`); neither fails. -/
theorem invalid_subTheme_not_rejected :
    ¬ validPosition ⟨"Theme1", "Subtheme99", 0, 3, "t0", "Mon"⟩ ∧
    "Subtheme99" ∉ ["Subtheme1", "Subtheme2", "Subtheme3", "Subtheme4", "Subtheme5"] ∧
    getProp THEMES "Theme1" = some ⟨"describe Theme1 content here.",
      ["Subtheme1", "Subtheme2", "Subtheme3", "Subtheme4", "Subtheme5"]⟩ ∧
    calculateNextState ⟨"Theme1", "Subtheme99", 0, 3, "t0", "Mon"⟩ =
      .ok ⟨"Theme1", "Subtheme1", 0, 0, "t0", "Mon"⟩ ∧
    getCycleProgress ⟨"Theme1", "Subtheme99", 0, 3, "t0", "Mon"⟩ =
      .ok ⟨"Theme1 -> Subtheme99", -1, 25, -4, 3, 15⟩ := by
  refine ⟨?_, by decide, rfl, rfl, rfl⟩
  rintro ⟨theme, hget, hmem⟩
  have ht : theme = ⟨"describe Theme1 content here.",
      ["Subtheme1", "Subtheme2", "Subtheme3", "Subtheme4", "Subtheme5"]⟩ := by
    have : getProp THEMES "Theme1" = some theme := hget
    simpa [getProp, THEMES] using this.symm
  subst ht
  revert hmem
  decide

/-- C10, amended: when the main theme of a state is not a key of `THEMES`,
`calculateNextState` (with the quota met) and `getCycleProgress` both fail with an error
instead of returning. -/
theorem unknown_mainTheme_fails (s : State) (h : s.mainTheme ∉ objectKeys THEMES) :
    (THREADS_PER_SUBTHEME ≤ s.currentSubThemeCount → ∃ e, calculateNextState s = .error e) ∧
    ∃ e, getCycleProgress s = .error e := by
  have hnone : getProp THEMES s.mainTheme = none := (getProp_eq_none_iff _ _).mpr h
  constructor
  · intro hq
    rw [calculateNextState_of_quota s hq]
    unfold advancePosition
    rw [hnone]
    exact ⟨_, rfl⟩
  · unfold getCycleProgress
    simp only [hnone]
    exact ⟨_, rfl⟩

/-- Witness of the amended C10. -/
theorem unknown_mainTheme_fails_witness :
    "Theme9" ∉ objectKeys THEMES ∧
    (THREADS_PER_SUBTHEME ≤ (3 : Int) →
      ∃ e, calculateNextState ⟨"Theme9", "Subtheme1", 0, 3, "t0", "Mon"⟩ = .error e) ∧
    ∃ e, getCycleProgress ⟨"Theme9", "Subtheme1", 0, 3, "t0", "Mon"⟩ = .error e :=
  ⟨by decide,
    unknown_mainTheme_fails ⟨"Theme9", "Subtheme1", 0, 3, "t0", "Mon"⟩ (by decide)⟩

/-! ## Theorems: the publishing pipeline -/

theorem chainEvents_calls : ∀ (tweets : List String) (reply : Option String) (ids : List String),
    ids.length = tweets.length →
    callsOf (chainEvents tweets reply ids) =
      List.zipWith (fun d id => (d, Except.ok id))
        (List.zipWith TweetData.mk tweets (reply :: ids.map some)) ids
  | [], _, ids, h => by
    cases ids with
    | nil => rfl
    | cons _ _ => simp at h
  | [text], reply, ids, h => by
    match ids, h with
    | [id], _ => rfl
  | text :: next :: rest, reply, ids, h => by
    match ids, h with
    | id :: ids, h =>
      have ih := chainEvents_calls (next :: rest) (some id) ids (by simpa using h)
      simp only [chainEvents, callsOf, ih, List.map_cons, List.zipWith_cons_cons]

theorem chainEvents_pauses : ∀ (tweets : List String) (reply : Option String)
    (ids : List String), ids.length = tweets.length →
    pausesOf (chainEvents tweets reply ids) = tweets.length - 1
  | [], _, ids, h => by
    cases ids with
    | nil => rfl
    | cons _ _ => simp at h
  | [text], reply, ids, h => by
    match ids, h with
    | [id], _ => rfl
  | text :: next :: rest, reply, ids, h => by
    match ids, h with
    | id :: ids, h =>
      have ih := chainEvents_pauses (next :: rest) (some id) ids (by simpa using h)
      simp only [chainEvents, pausesOf, ih, List.length_cons]
      omega

theorem postThreadFrom_chain {σ : Type} (postTweet : PostService σ)
    (hok : ∀ w d, ∃ id w', postTweet w d = (.ok id, w') ∧ id ≠ "") :
    ∀ (rest : List String) (prev : Option String) (ids : List String) (trace : List Event)
      (w : σ), (prev = none ∨ ∃ id, prev = some id ∧ id ≠ "") →
      ∃ newIds, newIds.length = rest.length ∧
        (postThreadFrom postTweet rest prev ids trace w).result = .ok (ids ++ newIds) ∧
        (postThreadFrom postTweet rest prev ids trace w).trace =
          trace ++ chainEvents rest prev newIds := by
  intro rest
  induction rest with
  | nil =>
    intro prev ids trace w _
    exact ⟨[], rfl, by simp [postThreadFrom], by simp [postThreadFrom, chainEvents]⟩
  | cons text rest ih =>
    intro prev ids trace w hprev
    have hreply : (if truthyId prev then prev else none) = prev := by
      rcases hprev with h | ⟨id, h, hid⟩
      · subst h; rfl
      · subst h; simp [truthyId, hid]
    obtain ⟨id, w', hcall, hid⟩ := hok w ⟨text, prev⟩
    obtain ⟨newIds, hlen, hres, htrace⟩ := ih (some id) (ids ++ [id])
      (if rest ≠ [] then (trace ++ [.post ⟨text, prev⟩ (.ok id)]) ++ [.pause 3000]
        else trace ++ [.post ⟨text, prev⟩ (.ok id)]) w' (Or.inr ⟨id, rfl, hid⟩)
    refine ⟨id :: newIds, by simp [hlen], ?_, ?_⟩
    · simp only [postThreadFrom, hreply, hcall]
      rw [hres]
      simp
    · simp only [postThreadFrom, hreply, hcall]
      rw [htrace]
      cases rest with
      | nil =>
        cases newIds with
        | nil => simp [chainEvents]
        | cons _ _ => simp at hlen
      | cons next rest => simp [chainEvents]

/-- C4, as stated, fails: a service whose calls all succeed may answer with an empty id, which
the test `if (previousTweetId)` takes for no previous unit, so the call for the second unit
carries no reply link instead of the id returned for the first. -/
theorem postThread_empty_id_unlinked :
    (∀ w d, ∃ id w', emptyIdService w d = (.ok id, w')) ∧
    (postThread emptyIdService ["first", "second"] ()).result = .ok ["", ""] ∧
    callsOf (postThread emptyIdService ["first", "second"] ()).trace =
      [(⟨"first", none⟩, .ok ""), (⟨"second", none⟩, .ok "")] :=
  ⟨fun w _ => ⟨"", w, rfl⟩, rfl, rfl⟩

/-- C4, amended: when every call of the posting service succeeds with a non-empty id,
`postThread` on `N` units returns `N` ids, performs exactly the chain of events
post, pause, post, ..., post: `N` calls in unit order, the first without reply link and each
later one replying to the id returned by the call before it, and `N - 1` pauses of 3000 ms,
one between each two consecutive posts and none after the last. -/
theorem postThread_chain {σ : Type} (postTweet : PostService σ) (tweets : List String) (w : σ)
    (hok : ∀ w d, ∃ id w', postTweet w d = (.ok id, w') ∧ id ≠ "") :
    ∃ ids, (postThread postTweet tweets w).result = .ok ids ∧
      ids.length = tweets.length ∧
      (postThread postTweet tweets w).trace = chainEvents tweets none ids ∧
      callsOf (postThread postTweet tweets w).trace =
        List.zipWith (fun d id => (d, Except.ok id))
          (List.zipWith TweetData.mk tweets (none :: ids.map some)) ids ∧
      pausesOf (postThread postTweet tweets w).trace = tweets.length - 1 := by
  obtain ⟨ids, hlen, hres, htrace⟩ :=
    postThreadFrom_chain postTweet hok tweets none [] [] w (Or.inl rfl)
  have htrace' : (postThread postTweet tweets w).trace = chainEvents tweets none ids := by
    simpa [postThread] using htrace
  refine ⟨ids, by simpa [postThread] using hres, hlen, htrace', ?_, ?_⟩
  · rw [htrace']
    exact chainEvents_calls tweets none ids hlen
  · rw [htrace']
    exact chainEvents_pauses tweets none ids hlen

/-- Witness of the amended C4: three units published through a service that answers with
the ids `x`, `xx`, `xxx`. -/
theorem postThread_chain_witness :
    (∀ w d, ∃ id w', countingService w d = (.ok id, w') ∧ id ≠ "") ∧
    ∃ ids, (postThread countingService ["a", "b", "c"] 0).result = .ok ids ∧
      ids.length = 3 ∧
      (postThread countingService ["a", "b", "c"] 0).trace =
        chainEvents ["a", "b", "c"] none ids ∧
      callsOf (postThread countingService ["a", "b", "c"] 0).trace =
        List.zipWith (fun d id => (d, Except.ok id))
          (List.zipWith TweetData.mk ["a", "b", "c"] (none :: ids.map some)) ids ∧
      pausesOf (postThread countingService ["a", "b", "c"] 0).trace = 3 - 1 :=
  ⟨fun w _ => ⟨_, _, rfl, by simp [String.ext_iff, List.replicate_succ]⟩,
    postThread_chain countingService ["a", "b", "c"] 0
      (fun w _ => ⟨_, _, rfl, by simp [String.ext_iff, List.replicate_succ]⟩)⟩

theorem callsOf_append (a b : List Event) : callsOf (a ++ b) = callsOf a ++ callsOf b := by
  induction a with
  | nil => rfl
  | cons ev a ih =>
    cases ev with
    | post d r => simp [callsOf, ih]
    | pause ms => simp [callsOf, ih]

theorem postThreadFrom_calls {σ : Type} (postTweet : PostService σ) :
    ∀ (rest : List String) (prev : Option String) (ids : List String) (trace : List Event)
      (w : σ), ∃ newCalls,
        callsOf (postThreadFrom postTweet rest prev ids trace w).trace =
          callsOf trace ++ newCalls ∧
        (∀ (j : Nat) (d : TweetData) (res : Except JsError String),
          newCalls[j]? = some (d, res) → rest[j]? = some d.text) ∧
        (∀ (j : Nat) (d : TweetData) (e : JsError), newCalls[j]? = some (d, Except.error e) →
          (postThreadFrom postTweet rest prev ids trace w).result = .error e ∧
          newCalls.length = j + 1 ∧
          (postThreadFrom postTweet rest prev ids trace w).trace.getLast? =
            some (.post d (.error e))) := by
  intro rest
  induction rest with
  | nil =>
    intro prev ids trace w
    exact ⟨[], by simp [postThreadFrom], by simp, by simp⟩
  | cons text rest ih =>
    intro prev ids trace w
    cases hcall : postTweet w ⟨text, if truthyId prev then prev else none⟩ with
    | mk res w' =>
      cases res with
      | error e =>
        refine ⟨[(⟨text, if truthyId prev then prev else none⟩, .error e)], ?_, ?_, ?_⟩
        · simp [postThreadFrom, hcall, callsOf_append, callsOf]
        · intro j d res hj
          cases j with
          | zero =>
            simp at hj
            simp [← hj.1]
          | succ j => simp at hj
        · intro j d e' hj
          cases j with
          | zero =>
            simp at hj
            obtain ⟨hd, he⟩ := hj
            subst hd
            cases he
            simp [postThreadFrom, hcall]
          | succ j => simp at hj
      | ok id =>
        obtain ⟨newCalls, hcalls, htext, hfail⟩ := ih (some id) (ids ++ [id])
          (if rest ≠ [] then
            (trace ++ [.post ⟨text, if truthyId prev then prev else none⟩ (.ok id)]) ++
              [.pause 3000]
           else trace ++ [.post ⟨text, if truthyId prev then prev else none⟩ (.ok id)]) w'
        have hrun : postThreadFrom postTweet (text :: rest) prev ids trace w =
            postThreadFrom postTweet rest (some id) (ids ++ [id])
              (if rest ≠ [] then
                (trace ++ [.post ⟨text, if truthyId prev then prev else none⟩ (.ok id)]) ++
                  [.pause 3000]
               else trace ++ [.post ⟨text, if truthyId prev then prev else none⟩ (.ok id)])
              w' := by
          simp only [postThreadFrom, hcall]
        refine ⟨(⟨text, if truthyId prev then prev else none⟩, .ok id) :: newCalls, ?_, ?_, ?_⟩
        · rw [hrun, hcalls]
          split <;> simp [callsOf_append, callsOf]
        · intro j d res hj
          cases j with
          | zero =>
            simp at hj
            simp [← hj.1]
          | succ j =>
            simp only [List.getElem?_cons_succ] at hj ⊢
            exact htext j d res hj
        · intro j d e hj
          cases j with
          | zero => simp at hj
          | succ j =>
            simp only [List.getElem?_cons_succ] at hj
            obtain ⟨h1, h2, h3⟩ := hfail j d e hj
            rw [hrun]
            exact ⟨h1, by simp [h2], h3⟩

/-- C5: when the call of `postTweet` for unit `k` fails with error `e` (the calls before it
having succeeded), `postThread` throws `e` and so returns no ids, the failing call is the
last thing it does (no call for a later unit, no pause, no compensating call), and the
`k + 1` calls issued are those for units `0..k` in order. -/
theorem postThread_fails_fast {σ : Type} (postTweet : PostService σ) (tweets : List String)
    (w : σ) (k : Nat) (d : TweetData) (e : JsError)
    (h : (callsOf (postThread postTweet tweets w).trace)[k]? = some (d, Except.error e)) :
    (postThread postTweet tweets w).result = .error e ∧
    (callsOf (postThread postTweet tweets w).trace).length = k + 1 ∧
    tweets[k]? = some d.text ∧
    (postThread postTweet tweets w).trace.getLast? = some (.post d (.error e)) ∧
    ∀ i, i < k → ∃ d' id, (callsOf (postThread postTweet tweets w).trace)[i]? =
      some (d', Except.ok id) ∧ tweets[i]? = some d'.text := by
  obtain ⟨newCalls, hcalls, htext, hfail⟩ := postThreadFrom_calls postTweet tweets none [] [] w
  have hcalls' : callsOf (postThread postTweet tweets w).trace = newCalls := by
    simpa [postThread, callsOf] using hcalls
  rw [hcalls'] at h ⊢
  obtain ⟨h1, h2, h3⟩ := hfail k d e h
  refine ⟨h1, h2, htext k d _ h, h3, ?_⟩
  intro i hi
  have hilt : i < newCalls.length := by omega
  have hget : newCalls[i]? = some (newCalls[i].1, newCalls[i].2) :=
    List.getElem?_eq_getElem hilt
  generalize newCalls[i].1 = d' at hget
  generalize newCalls[i].2 = res at hget
  cases res with
  | error e' =>
    obtain ⟨-, hlen, -⟩ := hfail i d' e' hget
    omega
  | ok id => exact ⟨d', id, hget, htext i d' _ hget⟩

/-- Witness of C5: the call for the second of three units is rejected. -/
theorem postThread_fails_fast_witness :
    (callsOf (postThread secondCallFails ["a", "b", "c"] 0).trace)[1]? =
      some (⟨"b", some "id0"⟩, Except.error (.upstream "rejected")) ∧
    (postThread secondCallFails ["a", "b", "c"] 0).result = .error (.upstream "rejected") ∧
    (callsOf (postThread secondCallFails ["a", "b", "c"] 0).trace).length = 1 + 1 :=
  ⟨rfl,
    (postThread_fails_fast secondCallFails ["a", "b", "c"] 0 1 ⟨"b", some "id0"⟩
      (.upstream "rejected") rfl).1,
    (postThread_fails_fast secondCallFails ["a", "b", "c"] 0 1 ⟨"b", some "id0"⟩
      (.upstream "rejected") rfl).2.1⟩

/-! ## Theorems: the thread parser -/

theorem litThen_some {α : Type} {lit : List Char} {k : List Char → Option α} {s : List Char}
    {r : α} (h : litThen lit k s = some r) : ∃ rest, s = lit ++ rest ∧ k rest = some r := by
  unfold litThen at h
  split at h
  · rename_i hp
    obtain ⟨t, ht⟩ := List.isPrefixOf_iff_prefix.mp hp
    refine ⟨t, ht.symm, ?_⟩
    rw [← ht, List.drop_left] at h
    exact h
  · cases h

theorem litThen_append {α : Type} (lit : List Char) (k : List Char → Option α)
    (rest : List Char) : litThen lit k (lit ++ rest) = k rest := by
  unfold litThen
  rw [if_pos (List.isPrefixOf_iff_prefix.mpr (List.prefix_append lit rest)), List.drop_left]

theorem starThen_some {α : Type} {p : Char → Bool} {k : List Char → Option α} {r : α} :
    ∀ {s : List Char}, starThen p k s = some r →
      ∃ run rest, s = run ++ rest ∧ (∀ c ∈ run, p c = true) ∧ k rest = some r
  | [], h => ⟨[], [], rfl, by simp, by simpa [starThen] using h⟩
  | c :: t, h => by
    unfold starThen at h
    by_cases hc : p c = true
    · rw [if_pos hc] at h
      cases hrec : starThen p k t with
      | some r' =>
        rw [hrec] at h
        obtain ⟨run, rest, hs, hrun, hk⟩ := starThen_some hrec
        refine ⟨c :: run, rest, by rw [hs]; rfl, ?_, ?_⟩
        · intro x hx
          rcases List.mem_cons.mp hx with hx | hx
          · rw [hx]; exact hc
          · exact hrun x hx
        · rw [hk]; exact h
      | none =>
        rw [hrec] at h
        exact ⟨[], c :: t, rfl, by simp, h⟩
    · rw [if_neg hc] at h
      exact ⟨[], c :: t, rfl, by simp, h⟩

theorem starThen_greedy {α : Type} (p : Char → Bool) (k : List Char → Option α) (r : α) :
    ∀ (s : List Char), k (s.dropWhile p) = some r → starThen p k s = some r
  | [], h => by simpa [starThen] using h
  | c :: t, h => by
    unfold starThen
    by_cases hc : p c = true
    · rw [if_pos hc]
      rw [List.dropWhile_cons_of_pos hc] at h
      rw [starThen_greedy p k r t h]
    · rw [if_neg hc]
      rw [List.dropWhile_cons_of_neg hc] at h
      exact h

theorem plusThen_some {α : Type} {p : Char → Bool} {k : List Char → Option α} {r : α}
    {s : List Char} (h : plusThen p k s = some r) :
    ∃ run rest, run ≠ [] ∧ s = run ++ rest ∧ (∀ c ∈ run, p c = true) ∧ k rest = some r := by
  cases s with
  | nil => simp [plusThen] at h
  | cons c t =>
    simp only [plusThen] at h
    by_cases hc : p c = true
    · rw [if_pos hc] at h
      obtain ⟨run, rest, hs, hrun, hk⟩ := starThen_some h
      refine ⟨c :: run, rest, by simp, by rw [hs]; rfl, ?_, hk⟩
      intro x hx
      rcases List.mem_cons.mp hx with hx | hx
      · rw [hx]; exact hc
      · exact hrun x hx
    · rw [if_neg hc] at h
      cases h

theorem plusThen_greedy {α : Type} (p : Char → Bool) (k : List Char → Option α) (r : α)
    (c : Char) (t : List Char) (hc : p c = true) (h : k (t.dropWhile p) = some r) :
    plusThen p k (c :: t) = some r := by
  simp only [plusThen]
  rw [if_pos hc]
  exact starThen_greedy p k r t h

theorem captureDotPlus_eq (s : List Char) :
    captureDotPlus s =
      if s.takeWhile isJsDot = [] then none else some (s.takeWhile isJsDot) := by
  cases s with
  | nil => simp [captureDotPlus, plusThen]
  | cons c t =>
    by_cases hc : isJsDot c = true
    · have htake : (c :: t).takeWhile isJsDot = c :: t.takeWhile isJsDot := by
        simp [List.takeWhile_cons, hc]
      rw [htake, if_neg (by simp)]
      unfold captureDotPlus
      apply plusThen_greedy _ _ _ _ _ hc
      congr 1
      obtain ⟨a, b, hab, ha, hb⟩ : ∃ a b, t = a ++ b ∧ a = t.takeWhile isJsDot ∧
          b = t.dropWhile isJsDot :=
        ⟨_, _, (List.takeWhile_append_dropWhile isJsDot t).symm, rfl, rfl⟩
      rw [← ha, ← hb, hab]
      have hn : (c :: (a ++ b)).length - b.length = (c :: a).length := by
        simp only [List.length_cons, List.length_append]
        omega
      rw [hn, ← List.cons_append]
      exact List.take_left _ _
    · have htake : (c :: t).takeWhile isJsDot = [] := by
        simp [List.takeWhile_cons, hc]
      rw [htake, if_pos rfl]
      simp [captureDotPlus, plusThen, hc]

theorem isJsSpace_of_lineTerminator {c : Char} (h : isLineTerminator c = true) :
    isJsSpace c = true := by
  simp only [isLineTerminator, Bool.or_eq_true, beq_iff_eq] at h
  simp only [isJsSpace, Bool.or_eq_true, beq_iff_eq, Bool.and_eq_true, decide_eq_true_eq]
  omega

theorem isJsDot_of_not_space {c : Char} (h : isJsSpace c = false) : isJsDot c = true := by
  cases hlt : isLineTerminator c with
  | true => rw [isJsSpace_of_lineTerminator hlt] at h; cases h
  | false => simp [isJsDot, hlt]

theorem not_space_of_digit {c : Char} (h : isJsDigit c = true) : isJsSpace c = false := by
  simp only [isJsDigit, Bool.and_eq_true, decide_eq_true_eq] at h
  rw [Bool.eq_false_iff]
  simp only [isJsSpace, ne_eq, Bool.or_eq_true, beq_iff_eq, Bool.and_eq_true,
    decide_eq_true_eq]
  omega

theorem rdropWhile_decomp (p : Char → Bool) (l : List Char) :
    ∃ b, l = l.rdropWhile p ++ b ∧ ∀ c ∈ b, p c = true := by
  refine ⟨(l.reverse.takeWhile p).reverse, ?_, ?_⟩
  · have h := List.takeWhile_append_dropWhile p l.reverse
    have h2 := congrArg List.reverse h
    rw [List.reverse_append, List.reverse_reverse] at h2
    rw [List.rdropWhile]
    exact h2.symm
  · intro c hc
    exact List.mem_takeWhile_imp (List.mem_reverse.mp hc)

theorem jsTrim_decomp (s : List Char) :
    ∃ a b, s = a ++ jsTrim s ++ b ∧ (∀ c ∈ a, isJsSpace c = true) ∧
      (∀ c ∈ b, isJsSpace c = true) := by
  obtain ⟨b, hb, hbs⟩ := rdropWhile_decomp isJsSpace (s.dropWhile isJsSpace)
  refine ⟨s.takeWhile isJsSpace, b, ?_, fun c hc => List.mem_takeWhile_imp hc, hbs⟩
  unfold jsTrim
  rw [List.append_assoc, ← hb, List.takeWhile_append_dropWhile]

theorem dropWhile_of_head_not (p : Char → Bool) (c : Char) (t : List Char)
    (h : p c = false) : (c :: t).dropWhile p = c :: t := by
  simp [List.dropWhile_cons, h]

theorem jsTrim_head_not_space {s : List Char} (h : jsTrim s ≠ []) :
    ∃ c t, jsTrim s = c :: t ∧ isJsSpace c = false := by
  unfold jsTrim at h ⊢
  obtain ⟨b, hb, -⟩ := rdropWhile_decomp isJsSpace (s.dropWhile isJsSpace)
  cases hr : (s.dropWhile isJsSpace).rdropWhile isJsSpace with
  | nil => exact absurd hr h
  | cons c t =>
    refine ⟨c, t, rfl, ?_⟩
    rw [hr] at hb
    have hne : s.dropWhile isJsSpace ≠ [] := by rw [hb]; simp
    have hhead := List.head_dropWhile_not isJsSpace s hne
    simp only [hb, List.cons_append, List.head_cons] at hhead
    exact hhead

theorem jsTrim_idem (s : List Char) : jsTrim (jsTrim s) = jsTrim s := by
  by_cases h : jsTrim s = []
  · rw [h]; rfl
  · obtain ⟨c, t, hct, hc⟩ := jsTrim_head_not_space h
    have h1 : (jsTrim s).dropWhile isJsSpace = jsTrim s := by
      rw [hct]; exact dropWhile_of_head_not _ _ _ hc
    have h2 : jsTrim (jsTrim s) = (jsTrim s).rdropWhile isJsSpace := by
      conv_lhs => rw [jsTrim, h1]
    rw [h2]
    unfold jsTrim
    exact List.rdropWhile_idempotent _ _

theorem jsTrim_of_head_not_space (c : Char) (t : List Char) (hc : isJsSpace c = false) :
    jsTrim (c :: t) = (c :: t).rdropWhile isJsSpace ∧ jsTrim (c :: t) ≠ [] := by
  have h1 : jsTrim (c :: t) = (c :: t).rdropWhile isJsSpace := by
    unfold jsTrim
    rw [dropWhile_of_head_not _ _ _ hc]
  refine ⟨h1, ?_⟩
  rw [h1]
  intro hnil
  have := List.rdropWhile_eq_nil_iff.mp hnil c (List.mem_cons_self _ _)
  rw [hc] at this
  cases this

theorem matchTweet_some {line cap : List Char} (h : matchTweet line = some cap) :
    ∃ ws1 ds ws2 tail, line = "TWEET".data ++ ws1 ++ ds ++ ":".data ++ ws2 ++ tail ∧
      (∀ c ∈ ws1, isJsSpace c = true) ∧ ds ≠ [] ∧ (∀ c ∈ ds, isJsDigit c = true) ∧
      (∀ c ∈ ws2, isJsSpace c = true) ∧ cap = tail.takeWhile isJsDot ∧ cap ≠ [] := by
  unfold matchTweet at h
  obtain ⟨r1, h1, k1⟩ := litThen_some h
  obtain ⟨ws1, r2, h2, hws1, k2⟩ := starThen_some k1
  obtain ⟨ds, r3, hds, h3, hdig, k3⟩ := plusThen_some k2
  obtain ⟨r4, h4, k4⟩ := litThen_some k3
  obtain ⟨ws2, tail, h5, hws2, k5⟩ := starThen_some k4
  rw [captureDotPlus_eq] at k5
  split at k5
  · cases k5
  · rename_i hne
    injection k5 with k5
    refine ⟨ws1, ds, ws2, tail, ?_, hws1, hds, hdig, hws2, k5.symm, ?_⟩
    · rw [h1, h2, h3, h4, h5]
      simp only [List.append_assoc]
    · rw [← k5]; exact hne

theorem matchTweet_of_shape (ws1 ds ws2 : List Char) (c : Char) (t : List Char)
    (hws1 : ∀ x ∈ ws1, isJsSpace x = true) (hds : ds ≠ [])
    (hdig : ∀ x ∈ ds, isJsDigit x = true) (hws2 : ∀ x ∈ ws2, isJsSpace x = true)
    (hc : isJsSpace c = false) :
    matchTweet ("TWEET".data ++ ws1 ++ ds ++ ":".data ++ ws2 ++ (c :: t)) =
      some ((c :: t).takeWhile isJsDot) := by
  have hcap : captureDotPlus (c :: t) = some ((c :: t).takeWhile isJsDot) := by
    rw [captureDotPlus_eq, if_neg]
    simp [List.takeWhile_cons, isJsDot_of_not_space hc]
  cases ds with
  | nil => exact absurd rfl hds
  | cons d ds =>
    have hd : isJsDigit d = true := hdig d (List.mem_cons_self _ _)
    have hds' : ∀ x ∈ ds, isJsDigit x = true := fun x hx => hdig x (List.mem_cons_of_mem _ hx)
    unfold matchTweet
    simp only [List.append_assoc]
    rw [litThen_append]
    apply starThen_greedy
    rw [List.dropWhile_append_of_pos hws1, List.cons_append,
      dropWhile_of_head_not _ _ _ (not_space_of_digit hd)]
    apply plusThen_greedy _ _ _ _ _ hd
    rw [List.dropWhile_append_of_pos hds']
    have hcolon : (":".data ++ (ws2 ++ c :: t)).dropWhile isJsDigit =
        ":".data ++ (ws2 ++ c :: t) := by
      exact dropWhile_of_head_not _ _ _ (by decide)
    rw [hcolon, litThen_append]
    apply starThen_greedy
    rw [List.dropWhile_append_of_pos hws2, dropWhile_of_head_not _ _ _ hc]
    exact hcap

theorem lineTweet_some {line u : List Char} (h : lineTweet line = some u) :
    ∃ cap, matchTweet line = some cap ∧ u = jsTrim cap ∧ u ≠ [] ∧ jsLength u ≤ 280 := by
  unfold lineTweet at h
  cases hm : matchTweet line with
  | none => rw [hm] at h; cases h
  | some cap =>
    rw [hm] at h
    simp only [] at h
    split at h
    · rename_i hc
      injection h with h
      exact ⟨cap, rfl, h.symm, h ▸ hc.1, h ▸ hc.2⟩
    · cases h

theorem lineTweet_of_tweetLine {line u : List Char} (h : TweetLine line u) :
    lineTweet line = some u := by
  obtain ⟨ws1, ds, ws2, c, t, rest, hline, hws1, hds, hdig, hws2, hc, hbody, hrest, hu,
    hlen⟩ := h
  have htake : (c :: (t ++ rest)).takeWhile isJsDot = c :: t := by
    have hdot : ∀ x ∈ c :: t, isJsDot x = true := fun x hx => by
      simp [isJsDot, hbody x hx]
    have hrest' : rest.takeWhile isJsDot = [] := by
      rcases hrest with h | ⟨x, r, h, hx⟩
      · rw [h]; rfl
      · rw [h]; simp [List.takeWhile_cons, isJsDot, hx]
    rw [← List.cons_append, List.takeWhile_append_of_pos hdot, hrest', List.append_nil]
  have hm : matchTweet line = some (c :: t) := by
    have hshape := matchTweet_of_shape ws1 ds ws2 c (t ++ rest) hws1 hds hdig hws2 hc
    rw [htake] at hshape
    have hl : line = "TWEET".data ++ ws1 ++ ds ++ ":".data ++ ws2 ++ (c :: (t ++ rest)) := by
      rw [hline]
      simp only [List.append_assoc, List.cons_append]
    rw [hl]
    exact hshape
  obtain ⟨htrim, hne⟩ := jsTrim_of_head_not_space c t hc
  unfold lineTweet
  rw [hm]
  simp only []
  rw [← hu] at htrim
  rw [htrim] at hne ⊢
  rw [if_pos ⟨hne, hlen⟩]

theorem tweetLine_of_lineTweet {line u : List Char} (h : lineTweet line = some u) :
    TweetLine line u := by
  obtain ⟨cap, hm, hu, hne, hlen⟩ := lineTweet_some h
  obtain ⟨ws1, ds, ws2, tail, hline, hws1, hds, hdig, hws2, hcap, -⟩ := matchTweet_some hm
  have hdrop : cap.dropWhile isJsSpace ≠ [] := by
    intro hnil
    apply hne
    rw [hu, jsTrim, hnil]
    rfl
  cases hbody : cap.dropWhile isJsSpace with
  | nil => exact absurd hbody hdrop
  | cons c t =>
    have hc : isJsSpace c = false := by
      have := List.head_dropWhile_not isJsSpace cap hdrop
      simp only [hbody, List.head_cons] at this
      exact this
    have hcapsplit : cap = cap.takeWhile isJsSpace ++ (c :: t) := by
      rw [← hbody, List.takeWhile_append_dropWhile]
    have htail : tail = cap ++ tail.dropWhile isJsDot := by
      rw [hcap, List.takeWhile_append_dropWhile]
    refine ⟨ws1, ds, ws2 ++ cap.takeWhile isJsSpace, c, t, tail.dropWhile isJsDot, ?_, hws1,
      hds, hdig, ?_, hc, ?_, ?_, ?_, hlen⟩
    · rw [hline]
      conv_lhs => rw [htail, hcapsplit]
      simp only [List.append_assoc]
    · intro x hx
      rcases List.mem_append.mp hx with hx | hx
      · exact hws2 x hx
      · exact List.mem_takeWhile_imp hx
    · intro x hx
      have hxcap : x ∈ cap := by
        rw [hcapsplit]
        exact List.mem_append_right _ hx
      rw [hcap] at hxcap
      have := List.mem_takeWhile_imp hxcap
      simpa [isJsDot] using this
    · cases hr : tail.dropWhile isJsDot with
      | nil => exact Or.inl rfl
      | cons x r =>
        refine Or.inr ⟨x, r, rfl, ?_⟩
        have hne' : tail.dropWhile isJsDot ≠ [] := by rw [hr]; simp
        have := List.head_dropWhile_not isJsDot tail hne'
        simp only [hr, List.head_cons] at this
        simpa [isJsDot] using this
    · rw [hu, jsTrim, hbody]

theorem extractLines_eq_filterMap (lines : List (List Char)) :
    extractLines lines = lines.filterMap lineTweet := by
  induction lines with
  | nil => rfl
  | cons line rest ih =>
    unfold extractLines
    cases h : lineTweet line with
    | none => simp [List.filterMap_cons, h, ih]
    | some u => simp [List.filterMap_cons, h, ih]

/-- C6, as stated, fails on the very response it names: the parser matches the literal
`TWEET`, so the lines `UNIT 1: ...` and `UNIT 2: ...` do not match and the response parses to
no unit at all; and a matching line whose trimmed content is longer than 280 code units
contributes nothing. -/
theorem extractThread_unit_prefix_unmatched :
    extractThread "UNIT 1: Hello #x\nNOTES: ignore\nUNIT 2: World" = [] ∧
    extractThread (String.mk ("TWEET 1: ".data ++ List.replicate 281 (Char.ofNat 97))) = [] := by
  constructor
  · decide
  · set_option maxRecDepth 100000 in decide

/-- C6, amended: `extractThread` returns, in the order of the lines of the response, the units
of the lines in the format `TWEET <integer>: <content>` (whatever the integer), a unit being
the content without surrounding whitespace, kept when it is non-empty and has at most 280
code units; every other line contributes nothing.  The response
`TWEET 1: Hello #x`, `NOTES: ignore`, `TWEET 2: World` parses to the two units `Hello #x` and
`World`, in that order. -/
theorem extractThread_lines (response : String) :
    extractThread response =
      ((splitLines response.data).filterMap lineTweet).map String.mk ∧
    (∀ line u, lineTweet line = some u ↔ TweetLine line u) ∧
    extractThread "TWEET 1: Hello #x\nNOTES: ignore\nTWEET 2: World" = ["Hello #x", "World"] := by
  refine ⟨?_, fun line u => ⟨tweetLine_of_lineTweet, lineTweet_of_tweetLine⟩, by decide⟩
  unfold extractThread
  rw [extractLines_eq_filterMap]

theorem length_le_jsLength (l : List Char) : l.length ≤ jsLength l := by
  induction l with
  | nil => simp [jsLength]
  | cons c t ih =>
    unfold jsLength at ih ⊢
    simp only [List.map_cons, List.sum_cons, List.length_cons]
    split <;> omega

theorem mem_extractLines {lines : List (List Char)} {u : List Char}
    (h : u ∈ extractLines lines) : ∃ line ∈ lines, lineTweet line = some u := by
  rw [extractLines_eq_filterMap] at h
  exact List.mem_filterMap.mp h

/-- C7: every unit returned by `extractThread` has between 1 and 280 UTF-16 code units (hence
at most 280 characters), equals its own trim, and is a contiguous part of one line of the
response: it is the text captured on that line by the pattern, less a run of whitespace on
either side. -/
theorem extractThread_units (response u : String) (h : u ∈ extractThread response) :
    1 ≤ jsLength u.data ∧ jsLength u.data ≤ 280 ∧ u.length ≤ 280 ∧
    jsTrim u.data = u.data ∧
    ∃ line ∈ splitLines response.data, u.data <:+: line ∧
      ∃ cap a b, matchTweet line = some cap ∧ cap <:+: line ∧ cap = a ++ u.data ++ b ∧
        (∀ c ∈ a, isJsSpace c = true) ∧ (∀ c ∈ b, isJsSpace c = true) := by
  unfold extractThread at h
  obtain ⟨l, hl, hlu⟩ := List.mem_map.mp h
  subst hlu
  obtain ⟨line, hline, htw⟩ := mem_extractLines hl
  obtain ⟨cap, hm, hu, hne, hlen⟩ := lineTweet_some htw
  obtain ⟨ws1, ds, ws2, tail, hshape, -, -, -, -, hcap, -⟩ := matchTweet_some hm
  obtain ⟨a, b, hab, ha, hb⟩ := jsTrim_decomp cap
  have hcapline : cap <:+: line := by
    refine ⟨"TWEET".data ++ ws1 ++ ds ++ ":".data ++ ws2, tail.dropWhile isJsDot, ?_⟩
    rw [hshape, hcap, List.append_assoc _ (List.takeWhile isJsDot tail),
      List.takeWhile_append_dropWhile]
  have hucap : l <:+: cap := ⟨a, b, by rw [hu]; exact hab.symm⟩
  have hlen1 : 1 ≤ l.length := by
    cases l with
    | nil => exact absurd rfl hne
    | cons _ _ => simp
  have hle := length_le_jsLength l
  refine ⟨by show 1 ≤ jsLength l; omega, hlen, by show l.length ≤ 280; omega, ?_, line, hline,
    hucap.trans hcapline, cap, a, b, hm, hcapline, ?_, ha, hb⟩
  · show jsTrim l = l
    rw [hu, jsTrim_idem]
  · show cap = a ++ l ++ b
    rw [hu]
    exact hab

/-- Witness of C7 on the second unit of a three-line response. -/
theorem extractThread_units_witness :
    "World" ∈ extractThread "TWEET 1: Hello #x\nNOTES: ignore\nTWEET 2: World  " ∧
    1 ≤ jsLength "World".data ∧ jsLength "World".data ≤ 280 ∧ "World".length ≤ 280 ∧
    jsTrim "World".data = "World".data :=
  ⟨by decide,
    (extractThread_units "TWEET 1: Hello #x\nNOTES: ignore\nTWEET 2: World  " "World"
      (by decide)).1,
    (extractThread_units "TWEET 1: Hello #x\nNOTES: ignore\nTWEET 2: World  " "World"
      (by decide)).2.1,
    (extractThread_units "TWEET 1: Hello #x\nNOTES: ignore\nTWEET 2: World  " "World"
      (by decide)).2.2.1,
    (extractThread_units "TWEET 1: Hello #x\nNOTES: ignore\nTWEET 2: World  " "World"
      (by decide)).2.2.2.1⟩

theorem digitChar_isJsDigit (m : Nat) (h : m < 10) : isJsDigit (Nat.digitChar m) = true := by
  interval_cases m <;> decide

theorem toDigitsCore_digits (fuel : Nat) : ∀ (n : Nat) (ds : List Char),
    (∀ c ∈ ds, isJsDigit c = true) →
    ∀ c ∈ Nat.toDigitsCore 10 fuel n ds, isJsDigit c = true := by
  induction fuel with
  | zero =>
    intro n ds hds c hc
    simp only [Nat.toDigitsCore] at hc
    exact hds c hc
  | succ fuel ih =>
    intro n ds hds c hc
    have hcons : ∀ x ∈ Nat.digitChar (n % 10) :: ds, isJsDigit x = true := by
      intro x hx
      rcases List.mem_cons.mp hx with hx | hx
      · rw [hx]; exact digitChar_isJsDigit _ (Nat.mod_lt _ (by norm_num))
      · exact hds x hx
    simp only [Nat.toDigitsCore] at hc
    split at hc
    · exact hcons c hc
    · exact ih _ _ hcons c hc

theorem toDigitsCore_ne_nil (fuel : Nat) : ∀ (n : Nat) (ds : List Char),
    ds ≠ [] → Nat.toDigitsCore 10 fuel n ds ≠ [] := by
  induction fuel with
  | zero =>
    intro n ds hds
    simpa [Nat.toDigitsCore] using hds
  | succ fuel ih =>
    intro n ds _
    simp only [Nat.toDigitsCore]
    split
    · simp
    · exact ih _ _ (by simp)

theorem toString_digits (k : Nat) :
    (toString k).data ≠ [] ∧ ∀ c ∈ (toString k).data, isJsDigit c = true := by
  have hdata : (toString k).data = Nat.toDigitsCore 10 (k + 1) k [] := rfl
  rw [hdata]
  constructor
  · simp only [Nat.toDigitsCore]
    split
    · simp
    · exact toDigitsCore_ne_nil _ _ _ (by simp)
  · exact toDigitsCore_digits _ _ _ (by simp)

theorem numbered_line_roundtrip {u : List Char} (hu : ∃ line, lineTweet line = some u)
    (k : Nat) :
    lineTweet ("TWEET ".data ++ (toString k).data ++ ": ".data ++ u) = some u ∧
    Char.ofNat 10 ∉ "TWEET ".data ++ (toString k).data ++ ": ".data ++ u := by
  obtain ⟨line, hline⟩ := hu
  obtain ⟨ws1, ds, ws2, c, t, rest, -, -, -, -, -, hc, hbody, -, hunit, hlen⟩ :=
    tweetLine_of_lineTweet hline
  obtain ⟨hdne, hdig⟩ := toString_digits k
  obtain ⟨b, hb, -⟩ := rdropWhile_decomp isJsSpace (c :: t)
  have hidem : u.rdropWhile isJsSpace = u := by
    rw [hunit]
    exact List.rdropWhile_idempotent _ _
  have hmem : ∀ x ∈ u, isLineTerminator x = false := by
    intro x hx
    apply hbody x
    rw [hb, ← hunit]
    exact List.mem_append_left _ hx
  cases hu' : u with
  | nil =>
    rw [← hunit, hu'] at hb
    cases b with
    | nil => cases hb
    | cons x b =>
      have hx : isJsSpace c = true := by
        have := List.rdropWhile_eq_nil_iff.mp (hunit.symm.trans hu') c (List.mem_cons_self _ _)
        exact this
      rw [hc] at hx
      cases hx
  | cons c' t' =>
    have hcc : c' = c := by
      rw [← hunit, hu'] at hb
      simp only [List.cons_append, List.cons.injEq] at hb
      exact hb.1.symm
    subst hcc
    constructor
    · apply lineTweet_of_tweetLine
      refine ⟨[Char.ofNat 32], (toString k).data, [Char.ofNat 32], c', t', [],
        by simp only [List.append_assoc, List.append_nil]; rfl, by decide,
        hdne, hdig, by decide, hc, ?_, Or.inl rfl, ?_, ?_⟩
      · rw [← hu']; exact hmem
      · rw [← hu']; exact hidem.symm
      · rw [← hu']; exact hlen
    · intro hin
      rw [← hu'] at hin
      simp only [List.mem_append] at hin
      rcases hin with ((hin | hin) | hin) | hin
      · revert hin; decide
      · have := hdig _ hin
        revert this; decide
      · revert hin; decide
      · have := hmem _ hin
        revert this; decide

theorem extractLines_numberedLines : ∀ (us : List (List Char)) (k : Nat),
    (∀ u ∈ us, ∃ line, lineTweet line = some u) →
    extractLines (numberedLines k us) = us ∧
    ∀ l ∈ numberedLines k us, Char.ofNat 10 ∉ l
  | [], _, _ => ⟨rfl, by simp [numberedLines]⟩
  | u :: us, k, h => by
    obtain ⟨h1, h2⟩ := numbered_line_roundtrip (h u (List.mem_cons_self _ _)) k
    obtain ⟨ih1, ih2⟩ := extractLines_numberedLines us (k + 1)
      (fun v hv => h v (List.mem_cons_of_mem _ hv))
    constructor
    · simp only [numberedLines, extractLines, h1, ih1]
    · intro l hl
      simp only [numberedLines, List.mem_cons] at hl
      rcases hl with hl | hl
      · rw [hl]; exact h2
      · exact ih2 l hl

/-- C8: writing the units of `extractThread response` back as the lines `TWEET 1: <text>`,
`TWEET 2: <text>`, ... joined by newlines, and parsing that text again, yields the same
sequence of units. -/
theorem extractThread_roundtrip (response : String) :
    extractThread (serializeThread (extractThread response)) = extractThread response := by
  have hgood : ∀ u ∈ extractLines (splitLines response.data),
      ∃ line, lineTweet line = some u :=
    fun u hu => by
      obtain ⟨line, -, h⟩ := mem_extractLines hu
      exact ⟨line, h⟩
  obtain ⟨h1, h2⟩ := extractLines_numberedLines _ 1 hgood
  have hdata : (List.map String.mk (extractLines (splitLines response.data))).map String.data =
      extractLines (splitLines response.data) := by
    rw [List.map_map]
    exact List.map_id _
  conv_lhs => unfold extractThread serializeThread
  simp only []
  rw [hdata]
  unfold extractThread
  congr 1
  by_cases hnil : numberedLines 1 (extractLines (splitLines response.data)) = []
  · have hempty : extractLines (splitLines response.data) = [] := by
      rw [← h1, hnil]
      rfl
    rw [hempty]
    rfl
  · unfold splitLines at h1 h2 hnil ⊢
    rw [List.splitOn_intercalate _ _ h2 hnil, h1]

/-! ## Theorems: the invocation handler -/

theorem updateState_cases {σ : Type} (env : Env σ) (state : State) (fx : Effects σ) :
    (∃ e, updateState env state fx = (.error e, { fx with puts := fx.puts + 1 })) ∨
    updateState env state fx =
      (.ok (), { fx with
                   puts := fx.puts + 1
                   persisted := fx.persisted ++
                     [{ state with lastUpdated := env.timestamp fx.puts }] }) := by
  unfold updateState
  by_cases h : env.putFails fx.puts = true
  · rw [if_pos h]
    exact Or.inl ⟨_, rfl⟩
  · rw [if_neg h]
    exact Or.inr rfl

theorem updateState_ok {σ : Type} (env : Env σ) (state : State) (fx : Effects σ)
    (h : env.putFails fx.puts = false) :
    updateState env state fx =
      (.ok (), { fx with
                   puts := fx.puts + 1
                   persisted := fx.persisted ++
                     [{ state with lastUpdated := env.timestamp fx.puts }] }) := by
  unfold updateState
  rw [if_neg (by simp [h])]

theorem calculateNextState_count {s s' : State} (h : calculateNextState s = .ok s') :
    (s.currentSubThemeCount < THREADS_PER_SUBTHEME ∧ s' = s) ∨ s'.currentSubThemeCount = 0 := by
  by_cases hq : s.currentSubThemeCount < THREADS_PER_SUBTHEME
  · unfold calculateNextState at h
    rw [if_pos hq] at h
    injection h with h
    exact Or.inl ⟨hq, h.symm⟩
  · rw [calculateNextState_of_quota s (not_lt.mp hq)] at h
    cases hadv : advancePosition s.mainTheme s.subTheme with
    | error e => rw [hadv] at h; cases h
    | ok p =>
      rw [hadv] at h
      injection h with h
      right
      rw [← h]

theorem handlerLoop_bounds {σ : Type} (env : Env σ) (mainTheme : String) :
    ∀ (remaining t : Nat) (state : State) (posted : List PostedThread) (fx : Effects σ),
      (∀ p ∈ fx.persisted,
        0 ≤ p.currentSubThemeCount ∧ p.currentSubThemeCount ≤ THREADS_PER_SUBTHEME) →
      0 ≤ state.currentSubThemeCount →
      state.currentSubThemeCount + remaining ≤ THREADS_PER_SUBTHEME →
      (∀ p ∈ (handlerLoop env mainTheme remaining t state posted fx).2.persisted,
        0 ≤ p.currentSubThemeCount ∧ p.currentSubThemeCount ≤ THREADS_PER_SUBTHEME) ∧
      ∀ state' posted',
        (handlerLoop env mainTheme remaining t state posted fx).1 = .ok (state', posted') →
        state'.currentSubThemeCount = state.currentSubThemeCount + remaining ∧
        state'.mainTheme = state.mainTheme ∧
        posted'.length = posted.length + remaining ∧
        (handlerLoop env mainTheme remaining t state posted fx).2.persisted.length =
          fx.persisted.length + remaining := by
  intro remaining
  induction remaining with
  | zero =>
    intro t state posted fx hfx _ _
    refine ⟨by simpa [handlerLoop] using hfx, ?_⟩
    intro state' posted' h
    simp only [handlerLoop] at h
    injection h with h
    injection h with h1 h2
    subst h1 h2
    simp [handlerLoop]
  | succ remaining ih =>
    intro t state posted fx hfx h0 h3
    cases hkey : getProp THEMES mainTheme with
    | none =>
      simp only [handlerLoop, hkey]
      exact ⟨hfx, fun _ _ h => by cases h⟩
    | some theme =>
      cases hgen : env.completion t with
      | error e =>
        simp only [handlerLoop, hkey, hgen]
        exact ⟨hfx, fun _ _ h => by cases h⟩
      | ok content =>
        cases hpost : (postThread env.postTweet (extractThread content) fx.world).result with
        | error e =>
          simp only [handlerLoop, hkey, hgen, hpost]
          exact ⟨hfx, fun _ _ h => by cases h⟩
        | ok tweetIds =>
          rcases updateState_cases env
            { state with
                currentSubThemeCount := state.currentSubThemeCount + 1
                threadsPostedToday := state.threadsPostedToday + 1 }
            { fx with
                events := fx.events ++
                  (postThread env.postTweet (extractThread content) fx.world).trace
                world := (postThread env.postTweet (extractThread content) fx.world).world }
            with ⟨e, hput⟩ | hput
          · simp only [handlerLoop, hkey, hgen, hpost, hput]
            exact ⟨hfx, fun _ _ h => by cases h⟩
          · simp only [handlerLoop, hkey, hgen, hpost, hput]
            have hcast : ((remaining + 1 : Nat) : Int) = (remaining : Int) + 1 := by
              push_cast; ring
            rw [hcast] at h3
            obtain ⟨hb, hres⟩ := ih (t + 1)
              { state with
                  currentSubThemeCount := state.currentSubThemeCount + 1
                  threadsPostedToday := state.threadsPostedToday + 1 }
              (posted ++ [⟨extractThread content, tweetIds⟩])
              { fx with
                  events := fx.events ++
                    (postThread env.postTweet (extractThread content) fx.world).trace
                  world := (postThread env.postTweet (extractThread content) fx.world).world
                  puts := fx.puts + 1
                  persisted := fx.persisted ++
                    [{ state with
                         currentSubThemeCount := state.currentSubThemeCount + 1
                         threadsPostedToday := state.threadsPostedToday + 1
                         lastUpdated := env.timestamp fx.puts }] }
              (by
                intro p hp
                rcases List.mem_append.mp hp with hp | hp
                · exact hfx p hp
                · rw [List.mem_singleton] at hp
                  subst hp
                  exact ⟨by show 0 ≤ state.currentSubThemeCount + 1; omega,
                    by show state.currentSubThemeCount + 1 ≤ THREADS_PER_SUBTHEME; omega⟩)
              (by show 0 ≤ state.currentSubThemeCount + 1; omega)
              (by show state.currentSubThemeCount + 1 + remaining ≤ THREADS_PER_SUBTHEME; omega)
            refine ⟨hb, ?_⟩
            intro state' posted' h
            obtain ⟨h1, h2, h3', h4⟩ := hres state' posted' h
            refine ⟨?_, h2, ?_, ?_⟩
            · rw [h1, hcast]
              show state.currentSubThemeCount + 1 + remaining = _
              ring
            · rw [h3']
              simp only [List.length_append, List.length_singleton]
              omega
            · rw [h4]
              simp only [List.length_append, List.length_singleton]
              omega

theorem getCurrentState_loaded {σ : Type} (env : Env σ) (fx : Effects σ) (loaded : State)
    (h : env.getItem = .ok (some loaded)) : getCurrentState env fx = (.ok loaded, fx) := by
  unfold getCurrentState
  rw [h]

theorem threadsToGenerate_bound (c : Int) (h3 : c ≤ THREADS_PER_SUBTHEME) :
    c + ((min THREADS_PER_EXECUTION (THREADS_PER_SUBTHEME - c)).toNat : Int) ≤
        THREADS_PER_SUBTHEME ∧
      ((min THREADS_PER_EXECUTION (THREADS_PER_SUBTHEME - c)).toNat : Int) =
        min THREADS_PER_EXECUTION (THREADS_PER_SUBTHEME - c) := by
  simp only [THREADS_PER_SUBTHEME, THREADS_PER_EXECUTION] at h3 ⊢
  omega

theorem day_rollover_count (today : String) (loaded : State) :
    (if today ≠ loaded.currentDay then
        { loaded with threadsPostedToday := 0, currentDay := today }
      else loaded).currentSubThemeCount = loaded.currentSubThemeCount ∧
    (if today ≠ loaded.currentDay then
        { loaded with threadsPostedToday := 0, currentDay := today }
      else loaded).mainTheme = loaded.mainTheme := by
  split <;> exact ⟨rfl, rfl⟩

theorem postThreadFrom_ok {σ : Type} (postTweet : PostService σ)
    (hok : ∀ w d, ∃ id w', postTweet w d = (.ok id, w')) :
    ∀ (rest : List String) (prev : Option String) (ids : List String) (trace : List Event)
      (w : σ), ∃ out, (postThreadFrom postTweet rest prev ids trace w).result = .ok out := by
  intro rest
  induction rest with
  | nil =>
    intro prev ids trace w
    exact ⟨ids, rfl⟩
  | cons text rest ih =>
    intro prev ids trace w
    obtain ⟨id, w', hcall⟩ := hok w ⟨text, if truthyId prev then prev else none⟩
    simp only [postThreadFrom, hcall]
    exact ih _ _ _ _

set_option maxRecDepth 100000 in
theorem keys_resolve : ∀ key ∈ objectKeys THEMES,
    (getProp THEMES key).isSome = true ∧
    (sumBefore (objectKeys THEMES) (indexOf (objectKeys THEMES) key)
      (objectKeys THEMES).length 0 0).toOption.isSome = true ∧
    (getProp THEMES (elemAt (objectKeys THEMES)
      (Int.tmod (indexOf (objectKeys THEMES) key + 1)
        ((objectKeys THEMES).length : Int)))).isSome = true ∧
    elemAt (objectKeys THEMES)
      (Int.tmod (indexOf (objectKeys THEMES) key + 1)
        ((objectKeys THEMES).length : Int)) ∈ objectKeys THEMES := by
  decide

theorem getCycleProgress_ok (s : State) (h : s.mainTheme ∈ objectKeys THEMES) :
    ∃ p, getCycleProgress s = .ok p := by
  obtain ⟨h1, h2, -, -⟩ := keys_resolve s.mainTheme h
  obtain ⟨theme, htheme⟩ := Option.isSome_iff_exists.mp h1
  cases hsum : sumBefore (objectKeys THEMES) (indexOf (objectKeys THEMES) s.mainTheme)
      (objectKeys THEMES).length 0 0 with
  | error e => rw [hsum] at h2; cases h2
  | ok before =>
    have htotal : totalOf (objectKeys THEMES) 0 = .ok 25 := rfl
    unfold getCycleProgress
    simp only [htheme, hsum, htotal]
    exact ⟨_, rfl⟩

theorem calculateNextState_ok (s : State) (h : s.mainTheme ∈ objectKeys THEMES) :
    ∃ s', calculateNextState s = .ok s' ∧ s'.mainTheme ∈ objectKeys THEMES := by
  by_cases hq : s.currentSubThemeCount < THREADS_PER_SUBTHEME
  · refine ⟨s, ?_, h⟩
    unfold calculateNextState
    rw [if_pos hq]
  · obtain ⟨h1, -, h3, h4⟩ := keys_resolve s.mainTheme h
    obtain ⟨theme, htheme⟩ := Option.isSome_iff_exists.mp h1
    obtain ⟨next, hnext⟩ := Option.isSome_iff_exists.mp h3
    rw [calculateNextState_of_quota s (not_lt.mp hq)]
    unfold advancePosition
    simp only [htheme]
    split
    · exact ⟨_, rfl, h⟩
    · simp only [hnext]
      exact ⟨_, rfl, h4⟩

theorem handlerLoop_ok {σ : Type} (env : Env σ) (mainTheme : String)
    (hkey : mainTheme ∈ objectKeys THEMES)
    (hgen : ∀ t, ∃ content, env.completion t = .ok content)
    (hpost : ∀ w d, ∃ id w', env.postTweet w d = (.ok id, w'))
    (hput : ∀ n, env.putFails n = false) :
    ∀ (remaining t : Nat) (state : State) (posted : List PostedThread) (fx : Effects σ),
      ∃ state' posted', (handlerLoop env mainTheme remaining t state posted fx).1 =
        .ok (state', posted') ∧ state'.mainTheme = state.mainTheme := by
  obtain ⟨htheme, -, -, -⟩ := keys_resolve mainTheme hkey
  obtain ⟨theme, htheme⟩ := Option.isSome_iff_exists.mp htheme
  intro remaining
  induction remaining with
  | zero =>
    intro t state posted fx
    exact ⟨state, posted, rfl, rfl⟩
  | succ remaining ih =>
    intro t state posted fx
    obtain ⟨content, hcontent⟩ := hgen t
    obtain ⟨ids, hids⟩ := postThreadFrom_ok env.postTweet hpost (extractThread content) none
      [] [] fx.world
    have hids' : (postThread env.postTweet (extractThread content) fx.world).result =
        .ok ids := hids
    simp only [handlerLoop, htheme, hcontent, hids']
    rw [updateState_ok env _ _ (hput _)]
    simp only []
    obtain ⟨state', posted', h1, h2⟩ := ih (t + 1)
      { state with
          currentSubThemeCount := state.currentSubThemeCount + 1
          threadsPostedToday := state.threadsPostedToday + 1 }
      (posted ++ [⟨extractThread content, ids⟩])
      { fx with
          events := fx.events ++
            (postThread env.postTweet (extractThread content) fx.world).trace
          world := (postThread env.postTweet (extractThread content) fx.world).world
          puts := fx.puts + 1
          persisted := fx.persisted ++
            [{ state with
                 currentSubThemeCount := state.currentSubThemeCount + 1
                 threadsPostedToday := state.threadsPostedToday + 1
                 lastUpdated := env.timestamp fx.puts }] }
    exact ⟨state', posted', h1, h2⟩

theorem initializeState_eq {σ : Type} (env : Env σ) :
    initializeState env = .ok ⟨"Theme1", "Subtheme1", 0, 0, env.timestamp 0, env.today⟩ := by
  rfl

theorem getCurrentState_cases {σ : Type} (env : Env σ) (fx0 : Effects σ) :
    (∃ e fx, getCurrentState env fx0 = (.error e, fx) ∧ fx.persisted = fx0.persisted) ∨
    (∃ loaded, env.getItem = .ok (some loaded) ∧
      getCurrentState env fx0 = (.ok loaded, fx0)) ∨
    (env.getItem = .ok none ∧
      getCurrentState env fx0 =
        (.ok ⟨"Theme1", "Subtheme1", 0, 0, env.timestamp 0, env.today⟩,
          { fx0 with
              puts := fx0.puts + 1
              persisted := fx0.persisted ++
                [⟨"Theme1", "Subtheme1", 0, 0, env.timestamp fx0.puts, env.today⟩] })) := by
  cases hitem : env.getItem with
  | error e =>
    refine Or.inl ⟨e, fx0, ?_, rfl⟩
    unfold getCurrentState
    rw [hitem]
  | ok item =>
    cases item with
    | some loaded =>
      refine Or.inr (Or.inl ⟨loaded, rfl, ?_⟩)
      unfold getCurrentState
      rw [hitem]
    | none =>
      have hres : getCurrentState env fx0 =
          match updateState env
            ⟨"Theme1", "Subtheme1", 0, 0, env.timestamp 0, env.today⟩ fx0 with
          | (.error e, fx') => (.error e, fx')
          | (.ok _, fx') =>
            (.ok ⟨"Theme1", "Subtheme1", 0, 0, env.timestamp 0, env.today⟩, fx') := by
        unfold getCurrentState
        rw [hitem, initializeState_eq]
      rcases updateState_cases env
        ⟨"Theme1", "Subtheme1", 0, 0, env.timestamp 0, env.today⟩ fx0 with ⟨e, hput⟩ | hput
      · rw [hput] at hres
        exact Or.inl ⟨e, _, hres, rfl⟩
      · rw [hput] at hres
        exact Or.inr (Or.inr ⟨rfl, hres⟩)

theorem handlerBody_succeeds {σ : Type} (env : Env σ) (fx0 fx : Effects σ) (loaded : State)
    (hget : getCurrentState env fx0 = (.ok loaded, fx))
    (hkey : loaded.mainTheme ∈ objectKeys THEMES)
    (hcred : env.credentials = .ok ())
    (hsamples : ∀ x ∈ env.sampleThreads, x.isSome = true)
    (hgen : ∀ t, ∃ content, env.completion t = .ok content)
    (hpost : ∀ w d, ∃ id w', env.postTweet w d = (.ok id, w'))
    (hput : ∀ n, env.putFails n = false) :
    ∃ summary, (handlerBody env fx0).1 = .ok summary := by
  have hfilter : filterSamples env.sampleThreads = .ok () := by
    unfold filterSamples
    rw [if_pos (List.all_eq_true.mpr hsamples)]
  obtain ⟨progress, hprog⟩ := getCycleProgress_ok loaded hkey
  obtain ⟨hdayc, hdaym⟩ := day_rollover_count env.today loaded
  obtain ⟨state1, posted, hloop, hmain⟩ := handlerLoop_ok env loaded.mainTheme hkey hgen hpost
    hput (min THREADS_PER_EXECUTION (THREADS_PER_SUBTHEME - loaded.currentSubThemeCount)).toNat
    0 (if env.today ≠ loaded.currentDay then
        { loaded with threadsPostedToday := 0, currentDay := env.today }
      else loaded) [] fx
  have hkey1 : state1.mainTheme ∈ objectKeys THEMES := by
    rw [hmain, hdaym]
    exact hkey
  obtain ⟨newState, hnext, hkey2⟩ := calculateNextState_ok state1 hkey1
  obtain ⟨progress2, hprog2⟩ := getCycleProgress_ok newState hkey2
  unfold handlerBody
  rw [hget]
  simp only [hprog, hcred, hfilter]
  cases hl : handlerLoop env loaded.mainTheme
      (min THREADS_PER_EXECUTION (THREADS_PER_SUBTHEME - loaded.currentSubThemeCount)).toNat 0
      (if env.today ≠ loaded.currentDay then
          { loaded with threadsPostedToday := 0, currentDay := env.today }
        else loaded) [] fx with
  | mk res fx1 =>
    rw [hl] at hloop
    simp only [] at hloop
    subst hloop
    simp only [hnext]
    rw [updateState_ok env _ _ (hput _)]
    simp only [hprog2]
    exact ⟨_, rfl⟩

theorem handlerBody_bounds {σ : Type} (env : Env σ) (fx0 fx : Effects σ) (loaded : State)
    (hget : getCurrentState env fx0 = (.ok loaded, fx))
    (hfx : ∀ p ∈ fx.persisted,
      0 ≤ p.currentSubThemeCount ∧ p.currentSubThemeCount ≤ THREADS_PER_SUBTHEME)
    (h0 : 0 ≤ loaded.currentSubThemeCount)
    (h3 : loaded.currentSubThemeCount ≤ THREADS_PER_SUBTHEME) :
    (∀ p ∈ (handlerBody env fx0).2.persisted,
      0 ≤ p.currentSubThemeCount ∧ p.currentSubThemeCount ≤ THREADS_PER_SUBTHEME) ∧
    ∀ summary, (handlerBody env fx0).1 = .ok summary →
      (summary.postedThreads.length : Int) =
        min THREADS_PER_EXECUTION (THREADS_PER_SUBTHEME - loaded.currentSubThemeCount) ∧
      (handlerBody env fx0).2.persisted.length =
        fx.persisted.length + summary.postedThreads.length + 1 ∧
      ∃ last, (handlerBody env fx0).2.persisted.getLast? = some last ∧
        last.currentSubThemeCount = summary.newState.currentSubThemeCount ∧
        0 ≤ last.currentSubThemeCount ∧
        last.currentSubThemeCount < THREADS_PER_SUBTHEME := by
  obtain ⟨hbound, hcast⟩ := threadsToGenerate_bound loaded.currentSubThemeCount h3
  obtain ⟨hdayc, -⟩ := day_rollover_count env.today loaded
  obtain ⟨hloopb, hloopr⟩ := handlerLoop_bounds env loaded.mainTheme
    (min THREADS_PER_EXECUTION (THREADS_PER_SUBTHEME - loaded.currentSubThemeCount)).toNat 0
    (if env.today ≠ loaded.currentDay then
        { loaded with threadsPostedToday := 0, currentDay := env.today }
      else loaded) [] fx hfx (by rw [hdayc]; exact h0)
    (by rw [hdayc]; exact hbound)
  unfold handlerBody
  rw [hget]
  simp only []
  cases hprog : getCycleProgress loaded with
  | error e => exact ⟨hfx, fun _ h => by cases h⟩
  | ok progress =>
    cases hcred : env.credentials with
    | error e => exact ⟨hfx, fun _ h => by cases h⟩
    | ok u =>
      cases hsamples : filterSamples env.sampleThreads with
      | error e => exact ⟨hfx, fun _ h => by cases h⟩
      | ok v =>
        simp only []
        cases hloop : handlerLoop env loaded.mainTheme
          (min THREADS_PER_EXECUTION (THREADS_PER_SUBTHEME - loaded.currentSubThemeCount)).toNat 0
          (if env.today ≠ loaded.currentDay then
              { loaded with threadsPostedToday := 0, currentDay := env.today }
            else loaded) [] fx with
        | mk res fx1 =>
          rw [hloop] at hloopb hloopr
          cases res with
          | error e => exact ⟨hloopb, fun _ h => by cases h⟩
          | ok sp =>
            obtain ⟨state1, posted⟩ := sp
            obtain ⟨hc1, -, hplen, hflen⟩ := hloopr state1 posted rfl
            simp only []
            cases hnext : calculateNextState state1 with
            | error e => exact ⟨hloopb, fun _ h => by cases h⟩
            | ok newState =>
              simp only []
              have hnew : 0 ≤ newState.currentSubThemeCount ∧
                  newState.currentSubThemeCount < THREADS_PER_SUBTHEME := by
                rcases calculateNextState_count hnext with ⟨hlt, heq⟩ | hz
                · rw [heq]
                  refine ⟨?_, hlt⟩
                  rw [hc1, hdayc]
                  omega
                · rw [hz]
                  exact ⟨le_refl _, by decide⟩
              rcases updateState_cases env newState fx1 with ⟨e, hput⟩ | hput
              · rw [hput]
                exact ⟨hloopb, fun _ h => by cases h⟩
              · rw [hput]
                simp only []
                have hall : ∀ p ∈ fx1.persisted ++
                    [{ newState with lastUpdated := env.timestamp fx1.puts }],
                    0 ≤ p.currentSubThemeCount ∧
                      p.currentSubThemeCount ≤ THREADS_PER_SUBTHEME := by
                  intro p hp
                  rcases List.mem_append.mp hp with hp | hp
                  · exact hloopb p hp
                  · rw [List.mem_singleton] at hp
                    subst hp
                    exact ⟨hnew.1, le_of_lt hnew.2⟩
                cases hprog2 : getCycleProgress newState with
                | error e => exact ⟨hall, fun _ h => by cases h⟩
                | ok newProgress =>
                  refine ⟨hall, ?_⟩
                  intro summary hs
                  injection hs with hs
                  subst hs
                  refine ⟨?_, ?_, _, List.getLast?_concat _, rfl, hnew.1, hnew.2⟩
                  · show (posted.length : Int) = _
                    rw [hplen, ← hcast]
                    simp
                  · show (fx1.persisted ++ _).length = fx.persisted.length + posted.length + 1
                    rw [List.length_append, hflen, hplen]
                    simp

theorem handler_of_body {σ : Type} (env : Env σ) (world : σ) :
    (handler env world).effects = (handlerBody env ⟨[], 0, [], world⟩).2 ∧
    (∀ summary, (handler env world).summary = some summary ↔
      (handlerBody env ⟨[], 0, [], world⟩).1 = .ok summary) ∧
    ((handler env world).statusCode = 200 ↔
      ∃ summary, (handlerBody env ⟨[], 0, [], world⟩).1 = .ok summary) := by
  unfold handler
  cases hbody : handlerBody env ⟨[], 0, [], world⟩ with
  | mk res fx =>
    cases res with
    | error e => simp
    | ok summary => simp

theorem getCurrentState_ok {σ : Type} (env : Env σ) (fx0 : Effects σ) (item : Option State)
    (hitem : env.getItem = .ok item)
    (hkey : ∀ s, env.getItem = .ok (some s) → s.mainTheme ∈ objectKeys THEMES)
    (hput : ∀ n, env.putFails n = false) :
    ∃ loaded fx, getCurrentState env fx0 = (.ok loaded, fx) ∧
      loaded.mainTheme ∈ objectKeys THEMES := by
  cases item with
  | some loaded =>
    refine ⟨loaded, fx0, ?_, hkey loaded hitem⟩
    unfold getCurrentState
    rw [hitem]
  | none =>
    refine ⟨⟨"Theme1", "Subtheme1", 0, 0, env.timestamp 0, env.today⟩,
      { fx0 with
          puts := fx0.puts + 1
          persisted := fx0.persisted ++
            [⟨"Theme1", "Subtheme1", 0, 0, env.timestamp fx0.puts, env.today⟩] }, ?_,
      (show "Theme1" ∈ objectKeys THEMES by decide)⟩
    unfold getCurrentState
    rw [hitem, initializeState_eq]
    simp only []
    rw [updateState_ok env _ _ (hput _)]

theorem handlerBody_of_load_error {σ : Type} (env : Env σ) (fx0 fx : Effects σ) (e : JsError)
    (hget : getCurrentState env fx0 = (.error e, fx)) :
    handlerBody env fx0 = (.error e, fx) := by
  unfold handlerBody
  rw [hget]

/-- C9, as stated, fails: an activation loads a state with count 2, generates and publishes
one thread and saves the state with count 3; the `PutCommand` that follows
`calculateNextState` is rejected, so the activation answers 500 and the state persisted last
has its count equal to the quota, not strictly below it. -/
theorem handler_final_put_rejected :
    (finalPutRejectedEnv ⟨"Theme1", "Subtheme1", 4, 2, "t0", "Tue Nov 03 2026"⟩).getItem =
      .ok (some ⟨"Theme1", "Subtheme1", 4, 2, "t0", "Tue Nov 03 2026"⟩) ∧
    (0 : Int) ≤ 2 ∧ (2 : Int) ≤ THREADS_PER_SUBTHEME ∧
    (handler (finalPutRejectedEnv ⟨"Theme1", "Subtheme1", 4, 2, "t0", "Tue Nov 03 2026"⟩)
      0).statusCode = 500 ∧
    (handler (finalPutRejectedEnv ⟨"Theme1", "Subtheme1", 4, 2, "t0", "Tue Nov 03 2026"⟩)
      0).effects.persisted = [⟨"Theme1", "Subtheme1", 5, 3, "t", "Tue Nov 03 2026"⟩] ∧
    (handler (finalPutRejectedEnv ⟨"Theme1", "Subtheme1", 4, 2, "t0", "Tue Nov 03 2026"⟩)
      0).effects.persisted.getLast? =
        some ⟨"Theme1", "Subtheme1", 5, 3, "t", "Tue Nov 03 2026"⟩ ∧
    ¬ ((3 : Int) < THREADS_PER_SUBTHEME) := by
  refine ⟨rfl, by decide, by decide, ?_, ?_, ?_, by decide⟩
  · decide
  · decide
  · decide

/-- C9, amended: when the state loaded from the table has
`0 ≤ currentSubThemeCount ≤ THREADS_PER_SUBTHEME` (on the first activation the state is the
initial one, with count 0, and is itself written to the table), every state written during
the activation has its count within the same bounds, whether the activation succeeds or
fails; and when the activation succeeds, the number of threads generated is
`min(THREADS_PER_EXECUTION, THREADS_PER_SUBTHEME - currentSubThemeCount)`, one state was
written after each of them and one after `calculateNextState`, and that last one, the new
state of the response, has its count strictly below the quota.  The activation does succeed
when the table answers, the main theme loaded is a key of `THEMES`, every sample scanned has
a text and no external call fails. -/
theorem handler_count_bounds {σ : Type} (env : Env σ) (world : σ)
    (hitem : ∀ s, env.getItem = .ok (some s) →
      0 ≤ s.currentSubThemeCount ∧ s.currentSubThemeCount ≤ THREADS_PER_SUBTHEME) :
    (∀ p ∈ (handler env world).effects.persisted,
      0 ≤ p.currentSubThemeCount ∧ p.currentSubThemeCount ≤ THREADS_PER_SUBTHEME) ∧
    (∀ summary, (handler env world).summary = some summary →
      ∃ loaded fx, getCurrentState env ⟨[], 0, [], world⟩ = (.ok loaded, fx) ∧
        ((env.getItem = .ok (some loaded) ∧ fx.persisted = []) ∨
          (env.getItem = .ok none ∧ loaded.currentSubThemeCount = 0 ∧
            fx.persisted.length = 1)) ∧
        (summary.postedThreads.length : Int) =
          min THREADS_PER_EXECUTION (THREADS_PER_SUBTHEME - loaded.currentSubThemeCount) ∧
        (handler env world).effects.persisted.length =
          fx.persisted.length + summary.postedThreads.length + 1 ∧
        ∃ last, (handler env world).effects.persisted.getLast? = some last ∧
          last.currentSubThemeCount = summary.newState.currentSubThemeCount ∧
          0 ≤ last.currentSubThemeCount ∧
          last.currentSubThemeCount < THREADS_PER_SUBTHEME) ∧
    ((∃ item, env.getItem = .ok item) →
      (∀ s, env.getItem = .ok (some s) → s.mainTheme ∈ objectKeys THEMES) →
      env.credentials = .ok () →
      (∀ x ∈ env.sampleThreads, x.isSome = true) →
      (∀ t, ∃ content, env.completion t = .ok content) →
      (∀ w d, ∃ id w', env.postTweet w d = (.ok id, w')) →
      (∀ n, env.putFails n = false) →
      (handler env world).statusCode = 200 ∧ (handler env world).summary.isSome = true) := by
  obtain ⟨heff, hsum, hstatus⟩ := handler_of_body env world
  have hmain : (∀ p ∈ (handlerBody env ⟨[], 0, [], world⟩).2.persisted,
        0 ≤ p.currentSubThemeCount ∧ p.currentSubThemeCount ≤ THREADS_PER_SUBTHEME) ∧
      ∀ summary, (handlerBody env ⟨[], 0, [], world⟩).1 = .ok summary →
        ∃ loaded fx, getCurrentState env ⟨[], 0, [], world⟩ = (.ok loaded, fx) ∧
          ((env.getItem = .ok (some loaded) ∧ fx.persisted = []) ∨
            (env.getItem = .ok none ∧ loaded.currentSubThemeCount = 0 ∧
              fx.persisted.length = 1)) ∧
          (summary.postedThreads.length : Int) =
            min THREADS_PER_EXECUTION (THREADS_PER_SUBTHEME - loaded.currentSubThemeCount) ∧
          (handlerBody env ⟨[], 0, [], world⟩).2.persisted.length =
            fx.persisted.length + summary.postedThreads.length + 1 ∧
          ∃ last, (handlerBody env ⟨[], 0, [], world⟩).2.persisted.getLast? = some last ∧
            last.currentSubThemeCount = summary.newState.currentSubThemeCount ∧
            0 ≤ last.currentSubThemeCount ∧
            last.currentSubThemeCount < THREADS_PER_SUBTHEME := by
    rcases getCurrentState_cases env ⟨[], 0, [], world⟩ with
      ⟨e, fx, hget, hfx⟩ | ⟨loaded, hload, hget⟩ | ⟨hnone, hget⟩
    · rw [handlerBody_of_load_error env _ fx e hget]
      refine ⟨?_, fun _ h => by cases h⟩
      intro p hp
      rw [hfx] at hp
      cases hp
    · obtain ⟨h0, h3⟩ := hitem loaded hload
      obtain ⟨hb, hs⟩ := handlerBody_bounds env _ _ loaded hget
        (fun p hp => by cases hp) h0 h3
      refine ⟨hb, fun summary hsummary => ?_⟩
      obtain ⟨h1, h2, h4⟩ := hs summary hsummary
      exact ⟨loaded, _, hget, Or.inl ⟨hload, rfl⟩, h1, h2, h4⟩
    · obtain ⟨hb, hs⟩ := handlerBody_bounds env _ _ _ hget
        (fun p hp => by
          rw [List.nil_append, List.mem_singleton] at hp
          subst hp
          exact ⟨le_refl _, (show (0 : Int) ≤ THREADS_PER_SUBTHEME by decide)⟩)
        (le_refl _) (show (0 : Int) ≤ THREADS_PER_SUBTHEME by decide)
      refine ⟨hb, fun summary hsummary => ?_⟩
      obtain ⟨h1, h2, h4⟩ := hs summary hsummary
      exact ⟨_, _, hget, Or.inr ⟨hnone, rfl, rfl⟩, h1, h2, h4⟩
  refine ⟨?_, ?_, ?_⟩
  · rw [heff]
    exact hmain.1
  · intro summary hsummary
    rw [heff]
    exact hmain.2 summary ((hsum summary).mp hsummary)
  · rintro ⟨item, hload⟩ hkey hcred hsamples hgen hpost hput
    obtain ⟨loaded, fx, hget, hloadedKey⟩ :=
      getCurrentState_ok env ⟨[], 0, [], world⟩ item hload hkey hput
    obtain ⟨summary, hbody⟩ :=
      handlerBody_succeeds env _ fx loaded hget hloadedKey hcred hsamples hgen hpost hput
    refine ⟨hstatus.mpr ⟨summary, hbody⟩, ?_⟩
    rw [(hsum summary).mpr hbody]
    rfl

/-- Witness of the amended C9: an activation loading a state one thread short of the quota,
in a world where every call succeeds. -/
theorem handler_count_bounds_witness :
    (∀ s, (calmEnv ⟨"Theme1", "Subtheme5", 4, 2, "t0", "Mon Nov 02 2026"⟩).getItem =
        .ok (some s) →
      0 ≤ s.currentSubThemeCount ∧ s.currentSubThemeCount ≤ THREADS_PER_SUBTHEME) ∧
    (∀ p ∈ (handler (calmEnv ⟨"Theme1", "Subtheme5", 4, 2, "t0", "Mon Nov 02 2026"⟩)
        0).effects.persisted,
      0 ≤ p.currentSubThemeCount ∧ p.currentSubThemeCount ≤ THREADS_PER_SUBTHEME) ∧
    (handler (calmEnv ⟨"Theme1", "Subtheme5", 4, 2, "t0", "Mon Nov 02 2026"⟩) 0).statusCode =
      200 := by
  have hitem : ∀ s, (calmEnv ⟨"Theme1", "Subtheme5", 4, 2, "t0", "Mon Nov 02 2026"⟩).getItem =
      .ok (some s) →
      0 ≤ s.currentSubThemeCount ∧ s.currentSubThemeCount ≤ THREADS_PER_SUBTHEME := by
    intro s hs
    have hs' : s = ⟨"Theme1", "Subtheme5", 4, 2, "t0", "Mon Nov 02 2026"⟩ := by
      injection hs with hs
      injection hs with hs
      exact hs.symm
    subst hs'
    decide
  obtain ⟨hall, -, hok⟩ :=
    handler_count_bounds (calmEnv ⟨"Theme1", "Subtheme5", 4, 2, "t0", "Mon Nov 02 2026"⟩) 0
      hitem
  refine ⟨hitem, hall, (hok ⟨_, rfl⟩ ?_ rfl (by decide) (fun _ => ⟨_, rfl⟩)
    (fun w _ => ⟨_, _, rfl⟩) (fun _ => rfl)).1⟩
  intro s hs
  have hs' : s = ⟨"Theme1", "Subtheme5", 4, 2, "t0", "Mon Nov 02 2026"⟩ := by
    injection hs with hs
    injection hs with hs
    exact hs.symm
  subst hs'
  decide

/-! ## Theorems: progress through the curriculum -/

theorem getCycleProgress_eq (s : State) :
    getCycleProgress s =
      (completedCount s.mainTheme s.subTheme).map (fun completed =>
        { currentPosition := s.mainTheme ++ " -> " ++ s.subTheme
          completedSubThemes := completed
          totalSubThemes := 25
          progressPercentage := roundDiv (completed * 100) 25
          threadsInCurrentSubTheme := s.currentSubThemeCount
          cycleDays := ceilDiv (25 * THREADS_PER_SUBTHEME) TOTAL_THREADS_PER_DAY }) := by
  have htotal : totalOf (objectKeys THEMES) 0 = .ok 25 := rfl
  unfold getCycleProgress completedCount
  simp only [htotal]
  cases getProp THEMES s.mainTheme with
  | none => rfl
  | some theme =>
    simp only []
    cases sumBefore (objectKeys THEMES) (indexOf (objectKeys THEMES) s.mainTheme)
        (objectKeys THEMES).length 0 0 with
    | error e => rfl
    | ok before => rfl

set_option maxRecDepth 100000 in
theorem completedCount_at_index : ∀ i < 5, ∀ j < 5,
    (positionAt i j).bind (fun p => (completedCount p.1 p.2).toOption) =
      some ((subThemesBefore i + j : Nat) : Int) := by
  decide

theorem completedCount_of_position {i j : Nat} {m t : String}
    (hpos : positionAt i j = some (m, t)) :
    completedCount m t = .ok ((subThemesBefore i + j : Nat) : Int) ∧
      subThemesBefore i + j < 25 := by
  obtain ⟨hi, hj⟩ := positionAt_bounds hpos
  have hidx := completedCount_at_index i hi j hj
  rw [hpos] at hidx
  simp only [Option.bind] at hidx
  constructor
  · cases hc : completedCount m t with
    | error e =>
      rw [hc] at hidx
      cases hidx
    | ok n =>
      rw [hc] at hidx
      injection hidx with hidx
      rw [hidx]
  · have hlt : ∀ a < 5, ∀ b < 5, subThemesBefore a + b < 25 := by decide
    exact hlt i hi j hj

/-- C11: at the valid position `(i, j)` of `THEMES`, `getCycleProgress` returns a report whose
`completedSubThemes` is the number of sub-themes of the main themes declared before main
theme `i` plus `j`, a value from 0 up to but not including `totalSubThemes` that is the same
whatever `currentSubThemeCount` is; `totalSubThemes` is the total number of sub-themes, 25;
and `cycleDays` is the ceiling of `totalSubThemes * THREADS_PER_SUBTHEME /
TOTAL_THREADS_PER_DAY`, which is 15.  The function only reads the state: it returns the
report and nothing else. -/
theorem getCycleProgress_at_position (s : State) (i j : Nat)
    (hpos : positionAt i j = some (s.mainTheme, s.subTheme)) :
    ∃ p, getCycleProgress s = .ok p ∧
      p.completedSubThemes = ((subThemesBefore i + j : Nat) : Int) ∧
      0 ≤ p.completedSubThemes ∧ p.completedSubThemes < p.totalSubThemes ∧
      p.totalSubThemes = (totalSubThemeCount : Int) ∧ p.totalSubThemes = 25 ∧
      p.cycleDays = ceilDiv (p.totalSubThemes * THREADS_PER_SUBTHEME) TOTAL_THREADS_PER_DAY ∧
      TOTAL_THREADS_PER_DAY * (p.cycleDays - 1) < p.totalSubThemes * THREADS_PER_SUBTHEME ∧
      p.totalSubThemes * THREADS_PER_SUBTHEME ≤ TOTAL_THREADS_PER_DAY * p.cycleDays ∧
      p.cycleDays = 15 ∧
      p.threadsInCurrentSubTheme = s.currentSubThemeCount ∧
      ∀ c : Int, ∃ q, getCycleProgress { s with currentSubThemeCount := c } = .ok q ∧
        q.completedSubThemes = p.completedSubThemes := by
  obtain ⟨hcount, hlt⟩ := completedCount_of_position hpos
  have htotal : (25 : Int) = (totalSubThemeCount : Int) := by decide
  have hceil : ceilDiv (25 * THREADS_PER_SUBTHEME) TOTAL_THREADS_PER_DAY = 15 := by decide
  have hp : getCycleProgress s = .ok
      { currentPosition := s.mainTheme ++ " -> " ++ s.subTheme
        completedSubThemes := ((subThemesBefore i + j : Nat) : Int)
        totalSubThemes := 25
        progressPercentage := roundDiv (((subThemesBefore i + j : Nat) : Int) * 100) 25
        threadsInCurrentSubTheme := s.currentSubThemeCount
        cycleDays := ceilDiv (25 * THREADS_PER_SUBTHEME) TOTAL_THREADS_PER_DAY } := by
    rw [getCycleProgress_eq, hcount]
    rfl
  refine ⟨_, hp, rfl, ?_, ?_, htotal, rfl, rfl, ?_, ?_, hceil, rfl, ?_⟩
  · show (0 : Int) ≤ ((subThemesBefore i + j : Nat) : Int)
    exact Int.ofNat_nonneg _
  · show ((subThemesBefore i + j : Nat) : Int) < 25
    exact_mod_cast hlt
  · show TOTAL_THREADS_PER_DAY *
        (ceilDiv (25 * THREADS_PER_SUBTHEME) TOTAL_THREADS_PER_DAY - 1) <
      25 * THREADS_PER_SUBTHEME
    decide
  · show 25 * THREADS_PER_SUBTHEME ≤
      TOTAL_THREADS_PER_DAY * ceilDiv (25 * THREADS_PER_SUBTHEME) TOTAL_THREADS_PER_DAY
    decide
  · intro c
    have hc : completedCount ({ s with currentSubThemeCount := c }).mainTheme
        ({ s with currentSubThemeCount := c }).subTheme =
        .ok ((subThemesBefore i + j : Nat) : Int) := hcount
    rw [getCycleProgress_eq, hc]
    exact ⟨_, rfl, rfl⟩

/-- Witness of C11, at the third sub-theme of the third main theme. -/
theorem getCycleProgress_at_position_witness :
    positionAt 2 2 = some ("Theme3", "Subtheme13") ∧
    ∃ p, getCycleProgress ⟨"Theme3", "Subtheme13", 4, 1, "t0", "Mon"⟩ = .ok p ∧
      p.completedSubThemes = 12 ∧ p.totalSubThemes = 25 ∧ p.cycleDays = 15 := by
  refine ⟨by decide, ?_⟩
  obtain ⟨p, h1, h2, -, -, -, h6, -, -, -, h10, -, -⟩ :=
    getCycleProgress_at_position ⟨"Theme3", "Subtheme13", 4, 1, "t0", "Mon"⟩ 2 2 (by decide)
  exact ⟨p, h1, by rw [h2]; decide, h6, h10⟩

end ThreadBot
